import Mathlib

/-!
Verification of the hellosynk Memory Graph core.

This file is a shallow embedding of `src/hellosynk/core/memory.py`
(`MemoryNode`, `MemoryGraph`) and of the memory-graph part of
`src/hellosynk/core/storage.py` (`Storage.save_memory_graph` /
`Storage.load_memory_graph`), together with theorems settling the
specification claims about them.

Modelling conventions:
* Timestamps (`datetime`) are abstracted as integer seconds (`Time := Int`);
  `isoformat`/`fromisoformat` round-trip is the identity on this abstraction.
  The sort key `(datetime.now() - n.updated_at).total_seconds()` used by
  `get_context` becomes integer subtraction; only comparisons of these
  values are ever performed, so the abstraction is faithful.  Each operation
  that reads the clock takes `now : Time` explicitly.
* `importance` is a Python float used only in comparisons and `max`; it is
  modelled as `ℚ`, on which those operations are exact.
* Python dicts keyed by strings (node store, metadata) are modelled as
  insertion-ordered association lists; `dict.update` keeps the position of
  overwritten keys and appends new ones, as in CPython.
* The `networkx.MultiDiGraph` edge set is modelled as an insertion-ordered
  list of edges (duplicates allowed = multi-graph semantics).  `successors`/
  `predecessors` yield the distinct neighbour ids; all claims about them are
  order-independent, so `List.dedup` is used for the deduplication.
* Python `set` objects (`get_related_nodes`, `get_context`) have
  unspecified iteration order; they are modelled as duplicate-free lists
  built in a fixed order, and every claim about them is stated
  order-independently (membership / permutation).
* `list.sort(key=k, reverse=True)` is CPython's stable sort ordered by the
  key descending.  A stable sort for a total preorder is unique, so it is
  modelled by `List.insertionSort` with the reflexive "key not smaller"
  relation, which is stable and structurally recursive.
* `raise ValueError` is modelled by `Except String`; an error result means
  the exception propagates with the caller's graph unchanged (the source
  raises before performing any mutation).
-/

/-- Timestamps, abstracted as integer seconds since an arbitrary epoch. -/
abbrev Time := Int

/-- JSON-like metadata values, abstracted as strings (the source never
inspects them; they are only stored, copied and compared). -/
abbrev Meta := List (String × String)

/-- One key/value assignment `d[k] = v` on a Python dict modelled as an
association list: an existing key is overwritten in place, a new key is
appended. -/
def dictInsert (m : Meta) (k v : String) : Meta :=
  if m.any (fun p => p.1 == k) then
    m.map (fun p => if p.1 == k then (k, v) else p)
  else
    m ++ [(k, v)]

/-- The `t.update(s)` on Python dicts: every key of `s` is written into `t`,
so keys of `s` win on conflict. -/
def dictUpdate (t s : Meta) : Meta :=
  s.foldl (fun acc p => dictInsert acc p.1 p.2) t

/-- Dictionary lookup (first binding of the key). -/
def dictLookup (m : Meta) (k : String) : Option String :=
  (m.find? (fun p => p.1 == k)).map (fun p => p.2)

/-- The `NodeType` enum of `memory.py`. -/
inductive NodeType where
  | entity
  | event
  | concept
  | relationship
  | task
  | context
deriving DecidableEq, Repr

/-- The `.value` string of a `NodeType` member. -/
def NodeType.value : NodeType → String
  | .entity => "entity"
  | .event => "event"
  | .concept => "concept"
  | .relationship => "relationship"
  | .task => "task"
  | .context => "context"

/-- The `NodeType(s)`: parse a value string back to the enum (`None` models the
`ValueError` raised on an unknown value). -/
def NodeType.ofValue (s : String) : Option NodeType :=
  if s == "entity" then some .entity
  else if s == "event" then some .event
  else if s == "concept" then some .concept
  else if s == "relationship" then some .relationship
  else if s == "task" then some .task
  else if s == "context" then some .context
  else none

/-- The `RelationshipType` enum of `memory.py`. -/
inductive RelationshipType where
  | related_to
  | part_of
  | caused_by
  | happened_before
  | involves
  | created
  | updated
  | similar_to
deriving DecidableEq, Repr

/-- The `.value` string of a `RelationshipType` member. -/
def RelationshipType.value : RelationshipType → String
  | .related_to => "related_to"
  | .part_of => "part_of"
  | .caused_by => "caused_by"
  | .happened_before => "happened_before"
  | .involves => "involves"
  | .created => "created"
  | .updated => "updated"
  | .similar_to => "similar_to"

/-- The `RelationshipType(s)`: parse a value string back to the enum. -/
def RelationshipType.ofValue (s : String) : Option RelationshipType :=
  if s == "related_to" then some .related_to
  else if s == "part_of" then some .part_of
  else if s == "caused_by" then some .caused_by
  else if s == "happened_before" then some .happened_before
  else if s == "involves" then some .involves
  else if s == "created" then some .created
  else if s == "updated" then some .updated
  else if s == "similar_to" then some .similar_to
  else none

/-- The `MemoryNode` dataclass. -/
structure MemoryNode where
  id : String
  type : NodeType
  content : String
  metadata : Meta := []
  created_at : Time := 0
  updated_at : Time := 0
  importance : ℚ := 1/2
  access_count : Nat := 0
  last_accessed : Option Time := none
deriving DecidableEq, Repr

/-- The `MemoryNode.access`: bump the access counter and stamp the access
time (called by `MemoryGraph.get_node` on every successful fetch). -/
def MemoryNode.access (n : MemoryNode) (now : Time) : MemoryNode :=
  { n with access_count := n.access_count + 1, last_accessed := some now }

/-- One directed, typed multi-edge of the `networkx.MultiDiGraph`
(attributes `relationship`, `metadata`, `created_at` as set by
`MemoryGraph.add_edge`). -/
structure MemoryEdge where
  source : String
  target : String
  relationship : RelationshipType
  metadata : Meta
  created_at : Time
deriving DecidableEq, Repr

/-- The `MemoryGraph`: the node store `self.nodes` (a dict keyed by id,
modelled as an insertion-ordered list with at most one record per id in
any reachable state) and the edge multiset of `self.graph`. -/
structure MemoryGraph where
  nodes : List MemoryNode := []
  edges : List MemoryEdge := []
deriving DecidableEq, Repr

/-- The `node_id in self.nodes`. -/
def MemoryGraph.hasNode (g : MemoryGraph) (i : String) : Bool :=
  g.nodes.any (fun n => n.id == i)

/-- The `self.nodes.get(node_id)` (no access bump; helper for the embedding). -/
def MemoryGraph.findNode (g : MemoryGraph) (i : String) : Option MemoryNode :=
  g.nodes.find? (fun n => n.id == i)

/-- The `MemoryGraph.add_node`: `self.nodes[node.id] = node`.  A Python dict
assignment overwrites an existing key in place (keeping its position) and
appends a new key. -/
def MemoryGraph.add_node (g : MemoryGraph) (n : MemoryNode) : MemoryGraph :=
  { g with
    nodes :=
      if g.hasNode n.id then
        g.nodes.map (fun m => if m.id == n.id then n else m)
      else
        g.nodes ++ [n] }

/-- The `MemoryGraph.get_node`: fetch by id; on a hit the stored record itself
is mutated by `node.access()` before being returned, so the returned
record and the stored record agree (they are one object in the source). -/
def MemoryGraph.get_node (g : MemoryGraph) (i : String) (now : Time) :
    Option MemoryNode × MemoryGraph :=
  match g.findNode i with
  | none => (none, g)
  | some n =>
    let n' := n.access now
    (some n', { g with nodes := g.nodes.map (fun m => if m.id == i then n' else m) })

/-- The `MemoryGraph.add_edge`: validates that both endpoints exist in
`self.nodes` (raising `ValueError` otherwise, before any mutation), then
appends one new multi-edge stamped with the current time. -/
def MemoryGraph.add_edge (g : MemoryGraph) (source_id target_id : String)
    (relationship : RelationshipType) (metadata : Meta) (now : Time) :
    Except String MemoryGraph :=
  if !g.hasNode source_id || !g.hasNode target_id then
    .error "Both nodes must exist in the graph"
  else
    .ok { g with
          edges := g.edges ++
            [{ source := source_id, target := target_id,
               relationship := relationship, metadata := metadata,
               created_at := now }] }

/-- The `self.graph.successors(i)`: the distinct targets of edges leaving `i`. -/
def successorIds (es : List MemoryEdge) (i : String) : List String :=
  ((es.filter (fun e => e.source == i)).map (fun e => e.target)).dedup

/-- The `self.graph.predecessors(i)`: the distinct sources of edges entering `i`. -/
def predecessorIds (es : List MemoryEdge) (i : String) : List String :=
  ((es.filter (fun e => e.target == i)).map (fun e => e.source)).dedup

/-- The `self.graph[a][b].values()`: all multi-edges from `a` to `b`, in
insertion order. -/
def edgesFromTo (es : List MemoryEdge) (a b : String) : List MemoryEdge :=
  es.filter (fun e => e.source == a && e.target == b)

/-- Python `str.lower()` (per-character lowercasing). -/
def strLower (s : String) : String :=
  ⟨s.data.map Char.toLower⟩

/-- Python `pat in s` substring containment. -/
def strContainsSub (s pat : String) : Bool :=
  (List.range (s.data.length + 1)).any (fun i => pat.data.isPrefixOf (s.data.drop i))

/-- The type filter of `find_nodes`: `if node_type and node.type != node_type:
continue` (an absent type matches everything; enum members are truthy). -/
def matchesType (node_type : Option NodeType) (n : MemoryNode) : Bool :=
  match node_type with
  | none => true
  | some t => n.type == t

/-- The query filter of `find_nodes`: `if query:` is false for `None` and for
the empty string (both match everything); otherwise case-insensitive
substring containment of the query in the content. -/
def matchesQuery (query : Option String) (n : MemoryNode) : Bool :=
  match query with
  | none => true
  | some q => q.isEmpty || strContainsSub (strLower n.content) (strLower q)

/-- The descending rank order of `find_nodes`:
`results.sort(key=lambda n: (n.importance, n.access_count), reverse=True)`.
`rankGE a b` holds when `a` may precede `b`: `a` has the strictly larger
importance, or equal importance and at least the access count. -/
def rankGE (a b : MemoryNode) : Prop :=
  b.importance < a.importance ∨
    (b.importance = a.importance ∧ b.access_count ≤ a.access_count)

instance : DecidableRel rankGE := fun a b => by
  unfold rankGE; infer_instance

instance : IsTotal MemoryNode rankGE where
  total a b := by
    unfold rankGE
    rcases lt_trichotomy a.importance b.importance with h | h | h
    · exact .inr (.inl h)
    · rcases Nat.le_total b.access_count a.access_count with h2 | h2
      · exact .inl (.inr ⟨h.symm, h2⟩)
      · exact .inr (.inr ⟨h, h2⟩)
    · exact .inl (.inl h)

instance : IsTrans MemoryNode rankGE where
  trans a b c hab hbc := by
    unfold rankGE at *
    rcases hab with h1 | ⟨h1, h1'⟩ <;> rcases hbc with h2 | ⟨h2, h2'⟩
    · exact .inl (h2.trans h1)
    · exact .inl (h2 ▸ h1)
    · exact .inl (h1 ▸ h2)
    · exact .inr ⟨h1 ▸ h2, h2'.trans h1'⟩

/-- The `MemoryGraph.find_nodes`: linear scan over `self.nodes.values()` with
the type filter then the query filter, stable sort by
`(importance, access_count)` descending, truncation to `limit`. -/
def MemoryGraph.find_nodes (g : MemoryGraph) (query : Option String)
    (node_type : Option NodeType) (limit : Nat) : List MemoryNode :=
  ((g.nodes.filter (fun n => matchesType node_type n && matchesQuery query n)).insertionSort
    rankGE).take limit

/-- The `related_ids.update(xs)` on a Python set, modelled on duplicate-free
lists: add one element if absent. -/
def setAdd (l : List String) (x : String) : List String :=
  if x ∈ l then l else l ++ [x]

/-- The `related_ids.update(xs)`: add each element of `xs` if absent. -/
def setUnion (l xs : List String) : List String :=
  xs.foldl setAdd l

/-- The id set accumulated by `MemoryGraph.get_related_nodes`: empty for an
unknown id; direct successors and predecessors when `depth >= 1`; their
successors and predecessors as well when `depth >= 2` (the two-hop loop
iterates over a snapshot of the one-hop set). -/
def MemoryGraph.related_ids (g : MemoryGraph) (node_id : String) (depth : Nat) :
    List String :=
  if !g.hasNode node_id then [] else
  let r1 :=
    if 1 ≤ depth then
      setUnion (setUnion [] (successorIds g.edges node_id)) (predecessorIds g.edges node_id)
    else []
  if 2 ≤ depth then
    r1.foldl
      (fun acc nid => setUnion (setUnion acc (successorIds g.edges nid)) (predecessorIds g.edges nid))
      r1
  else r1

/-- The `MemoryGraph.get_related_nodes`: the related ids resolved through the
node store (`[self.nodes[nid] for nid in related_ids if nid in self.nodes]`). -/
def MemoryGraph.get_related_nodes (g : MemoryGraph) (node_id : String) (depth : Nat) :
    List MemoryNode :=
  (g.related_ids node_id depth).filterMap (fun nid => g.findNode nid)

/-- The `context_nodes.update(xs)` on a Python set of nodes (hash by id,
equality on all fields), modelled on duplicate-free lists. -/
def nodeSetAdd (l : List MemoryNode) (n : MemoryNode) : List MemoryNode :=
  if n ∈ l then l else l ++ [n]

/-- Union of a node set with a list of nodes. -/
def nodeSetUnion (l xs : List MemoryNode) : List MemoryNode :=
  xs.foldl nodeSetAdd l

/-- The descending rank order of `get_context`: key
`(importance, access_count, (now - updated_at).total_seconds())`,
`reverse=True`.  Seconds-since-update is not inverted, so on
importance/access-count ties the staler node (larger `now - updated_at`)
sorts first. -/
def ctxRankGE (now : Time) (a b : MemoryNode) : Prop :=
  b.importance < a.importance ∨
    (b.importance = a.importance ∧
      (b.access_count < a.access_count ∨
        (b.access_count = a.access_count ∧ now - b.updated_at ≤ now - a.updated_at)))

instance (now : Time) : DecidableRel (ctxRankGE now) := fun a b => by
  unfold ctxRankGE; infer_instance

instance (now : Time) : IsTotal MemoryNode (ctxRankGE now) where
  total a b := by
    unfold ctxRankGE
    rcases lt_trichotomy a.importance b.importance with h | h | h
    · exact .inr (.inl h)
    · rcases Nat.lt_trichotomy a.access_count b.access_count with h2 | h2 | h2
      · exact .inr (.inr ⟨h, .inl h2⟩)
      · rcases Int.le_total (now - b.updated_at) (now - a.updated_at) with h3 | h3
        · exact .inl (.inr ⟨h.symm, .inr ⟨h2.symm, h3⟩⟩)
        · exact .inr (.inr ⟨h, .inr ⟨h2, h3⟩⟩)
      · exact .inl (.inr ⟨h.symm, .inl h2⟩)
    · exact .inl (.inl h)

instance (now : Time) : IsTrans MemoryNode (ctxRankGE now) where
  trans a b c hab hbc := by
    unfold ctxRankGE at *
    rcases hab with h1 | ⟨h1, h1'⟩ <;> rcases hbc with h2 | ⟨h2, h2'⟩
    · exact .inl (h2.trans h1)
    · exact .inl (h2 ▸ h1)
    · exact .inl (h1 ▸ h2)
    · refine .inr ⟨h1 ▸ h2, ?_⟩
      rcases h1' with h3 | ⟨h3, h3'⟩ <;> rcases h2' with h4 | ⟨h4, h4'⟩
      · exact .inl (h4.trans h3)
      · exact .inl (h4 ▸ h3)
      · exact .inl (h3 ▸ h4)
      · exact .inr ⟨h3 ▸ h4, h4'.trans h3'⟩

/-- The candidate set of `get_context`: the seeds
`find_nodes(query, limit=max_nodes)` together with
`get_related_nodes(seed, depth=1)` for every seed. -/
def MemoryGraph.contextCandidates (g : MemoryGraph) (query : String)
    (max_nodes : Nat) : List MemoryNode :=
  let matching := g.find_nodes (some query) none max_nodes
  matching.foldl (fun acc node => nodeSetUnion acc (g.get_related_nodes node.id 1))
    (nodeSetUnion [] matching)

/-- The `MemoryGraph.get_context`: candidates, sorted descending by
`(importance, access_count, seconds-since-update)`, truncated to
`max_nodes`. -/
def MemoryGraph.get_context (g : MemoryGraph) (query : String)
    (max_nodes : Nat) (now : Time) : List MemoryNode :=
  ((g.contextCandidates query max_nodes).insertionSort (ctxRankGE now)).take max_nodes

/-- The in-place update of the target record performed by `merge_nodes`:
content concatenated with a blank line, metadata overlaid (source keys
win), importance maxed, access counts added.  `updated_at` and
`last_accessed` are not touched (the source mutates the fields directly,
bypassing `update()`/`access()`). -/
def mergeRecord (target source : MemoryNode) : MemoryNode :=
  { target with
    content := target.content ++ "\n\n" ++ source.content,
    metadata := dictUpdate target.metadata source.metadata,
    importance := max target.importance source.importance,
    access_count := target.access_count + source.access_count }

/-- The `MemoryGraph.merge_nodes`: validate both ids, merge the records, copy
every edge entering `source` to enter `target`, then (on the updated edge
set) copy every edge leaving `source` to leave `target`, and finally drop
`source` and every edge still incident to it.  Each inner loop reads the
multi-edge dict once per neighbour; for `source_id ≠ target_id` (the only
case the source supports: with `source_id = target_id` CPython raises
`RuntimeError` for mutating a dict under iteration) the copies never land
in the dict being iterated, which this embedding mirrors by snapshotting
`edgesFromTo` at the start of each neighbour iteration. -/
def MemoryGraph.merge_nodes (g : MemoryGraph) (source_id target_id : String)
    (now : Time) : Except String MemoryGraph :=
  match g.findNode source_id, g.findNode target_id with
  | some source, some target => do
    let g1 : MemoryGraph :=
      { g with
        nodes := g.nodes.map (fun m => if m.id == target_id then mergeRecord target source else m) }
    let g2 ← (predecessorIds g1.edges source_id).foldlM
      (fun gc pred_id =>
        (edgesFromTo gc.edges pred_id source_id).foldlM
          (fun gi e => gi.add_edge pred_id target_id e.relationship e.metadata now) gc)
      g1
    let g3 ← (successorIds g2.edges source_id).foldlM
      (fun gc succ_id =>
        (edgesFromTo gc.edges source_id succ_id).foldlM
          (fun gi e => gi.add_edge target_id succ_id e.relationship e.metadata now) gc)
      g2
    pure { nodes := g3.nodes.filter (fun m => !(m.id == source_id)),
           edges := g3.edges.filter (fun e => !(e.source == source_id) && !(e.target == source_id)) }
  | _, _ => .error "Both nodes must exist"

/-- The dictionary produced by `MemoryNode.to_dict` (and, field for field,
a row of the `memory_nodes` table). -/
structure NodeDict where
  id : String
  type : String
  content : String
  metadata : Meta
  created_at : Time
  updated_at : Time
  importance : ℚ
  access_count : Nat
  last_accessed : Option Time
deriving DecidableEq, Repr

/-- The `MemoryNode.to_dict`. -/
def MemoryNode.to_dict (n : MemoryNode) : NodeDict :=
  { id := n.id, type := n.type.value, content := n.content,
    metadata := n.metadata, created_at := n.created_at,
    updated_at := n.updated_at, importance := n.importance,
    access_count := n.access_count, last_accessed := n.last_accessed }

/-- The `MemoryNode.from_dict` (the `NodeType(data["type"])` call raises
`ValueError` on an unknown value). -/
def MemoryNode.from_dict (d : NodeDict) : Except String MemoryNode :=
  match NodeType.ofValue d.type with
  | none => .error "invalid node type"
  | some t =>
    .ok { id := d.id, type := t, content := d.content, metadata := d.metadata,
          created_at := d.created_at, updated_at := d.updated_at,
          importance := d.importance, access_count := d.access_count,
          last_accessed := d.last_accessed }

/-- One serialized edge of `MemoryGraph.to_dict` (and a row of the
`memory_edges` table): the edge's `created_at` is not serialized. -/
structure EdgeDict where
  source : String
  target : String
  relationship : String
  metadata : Meta
deriving DecidableEq, Repr

/-- The full-graph document (`nodes` and `edges` keys). -/
structure GraphDict where
  nodes : List NodeDict
  edges : List EdgeDict
deriving DecidableEq, Repr

/-- The `MemoryGraph.to_dict`. -/
def MemoryGraph.to_dict (g : MemoryGraph) : GraphDict :=
  { nodes := g.nodes.map MemoryNode.to_dict,
    edges := g.edges.map (fun e =>
      { source := e.source, target := e.target,
        relationship := e.relationship.value, metadata := e.metadata }) }

/-- The `MemoryGraph.from_dict`: clear both stores, restore the nodes through
`add_node`, then restore the edges through `add_edge` (which re-validates
endpoints and stamps a fresh `created_at`). -/
def MemoryGraph.from_dict (d : GraphDict) (now : Time) : Except String MemoryGraph := do
  let g1 ← d.nodes.foldlM
    (fun (gc : MemoryGraph) nd => do
      let n ← MemoryNode.from_dict nd
      pure (gc.add_node n))
    { nodes := [], edges := [] }
  d.edges.foldlM
    (fun gc ed =>
      match RelationshipType.ofValue ed.relationship with
      | none => Except.error "invalid relationship type"
      | some rel => gc.add_edge ed.source ed.target rel ed.metadata now)
    g1

/-- The persisted state written by `Storage`: the two database tables and
the JSON backup file (`None` = the file does not exist). -/
structure Store where
  dbNodes : List NodeDict
  dbEdges : List EdgeDict
  jsonFile : Option GraphDict
deriving Repr

/-- The `Storage.save_memory_graph`: serialize, write the JSON backup, then
clear-and-insert both tables — the persisted state is fully replaced. -/
def Storage.save_memory_graph (g : MemoryGraph) : Store :=
  let d := g.to_dict
  { dbNodes := d.nodes, dbEdges := d.edges, jsonFile := some d }

/-- The `Storage.load_memory_graph`: hydrate from the database when it holds
any node row; fall back to the JSON file only when the graph is still
empty afterwards; otherwise produce the empty graph. -/
def Storage.load_memory_graph (s : Store) (now : Time) : Except String MemoryGraph := do
  let g0 : MemoryGraph := { nodes := [], edges := [] }
  let g1 ←
    if s.dbNodes.isEmpty then pure g0
    else MemoryGraph.from_dict { nodes := s.dbNodes, edges := s.dbEdges } now
  if g1.nodes.isEmpty then
    match s.jsonFile with
    | some d => MemoryGraph.from_dict d now
    | none => pure g1
  else
    pure g1

/-- Well-formedness of the edge store: every endpoint of every edge exists
in the node store.  This holds in every state reachable through the public
operations (`add_edge` validates endpoints; `merge_nodes` removes a node's
edges with it). -/
def MemoryGraph.EdgesWF (g : MemoryGraph) : Prop :=
  ∀ e ∈ g.edges, g.hasNode e.source = true ∧ g.hasNode e.target = true

/-! ### Concrete fixtures used to instantiate the theorems -/

/-- The empty graph (`MemoryGraph()`). -/
def graphEmpty : MemoryGraph := { nodes := [], edges := [] }

/-- Fixture: "User likes Python" (spec section 8 scenario, with integral
importance values so that all comparisons are between integer rationals). -/
def exN1 : MemoryNode :=
  { id := "n1", type := .entity, content := "User likes Python", metadata := [],
    created_at := 0, updated_at := 0, importance := 1, access_count := 0,
    last_accessed := none }

/-- Fixture: "Team meeting Monday". -/
def exN2 : MemoryNode :=
  { id := "n2", type := .event, content := "Team meeting Monday", metadata := [],
    created_at := 0, updated_at := 5, importance := 0, access_count := 0,
    last_accessed := none }

/-- Fixture graph holding `exN1` and `exN2`. -/
def exGraph : MemoryGraph := (graphEmpty.add_node exN1).add_node exN2

/-- Fixture graph with a single node carrying a self-loop. -/
def exLoop : MemoryGraph :=
  { nodes := [exN1],
    edges := [{ source := "n1", target := "n1", relationship := .related_to,
                metadata := [], created_at := 0 }] }

/-- Fixture: an overwriting record for `n1` with different content. -/
def exN1b : MemoryNode :=
  { id := "n1", type := .entity, content := "overwritten", metadata := [],
    created_at := 0, updated_at := 9, importance := 0, access_count := 4,
    last_accessed := none }

/-- Fixture node `a` (access count 2) for the merge scenarios. -/
def exA : MemoryNode :=
  { id := "a", type := .entity, content := "A", metadata := [("k", "va"), ("ka", "1")],
    created_at := 0, updated_at := 0, importance := 1, access_count := 2,
    last_accessed := none }

/-- Fixture node `b` (access count 3) for the merge scenarios. -/
def exB : MemoryNode :=
  { id := "b", type := .entity, content := "B", metadata := [("k", "vb"), ("kb", "2")],
    created_at := 0, updated_at := 0, importance := 0, access_count := 3,
    last_accessed := none }

/-- Fixture graph with `exA`, `exB` and three edges: `a → b`, `b → a` and a
self-loop `a → a`. -/
def exG2 : MemoryGraph :=
  { nodes := [exA, exB],
    edges := [{ source := "a", target := "b", relationship := .related_to,
                metadata := [("m", "1")], created_at := 0 },
              { source := "b", target := "a", relationship := .part_of,
                metadata := [], created_at := 0 },
              { source := "a", target := "a", relationship := .similar_to,
                metadata := [], created_at := 0 }] }

/-- Fixture node with out-of-range importance `3`. -/
def exBad : MemoryNode :=
  { id := "w", type := .concept, content := "wild", metadata := [],
    created_at := 0, updated_at := 0, importance := 3, access_count := 0,
    last_accessed := none }

/-- Fixture graph holding the out-of-range node. -/
def exG8 : MemoryGraph := graphEmpty.add_node exBad

/-- The projection of an edge that `merge_nodes` preserves: endpoints,
relationship type and metadata (the copies get a fresh `created_at`). -/
def edgeMeta (e : MemoryEdge) : String × String × RelationshipType × Meta :=
  (e.source, e.target, e.relationship, e.metadata)

/-- Substituting `tid` for `sid` in an endpoint. -/
def substId (sid tid s : String) : String := if s = sid then tid else s

/-- The preserved projection of an edge with `tid` substituted for `sid`
at both endpoints. -/
def edgeMetaSubst (sid tid : String) (e : MemoryEdge) :
    String × String × RelationshipType × Meta :=
  (substId sid tid e.source, substId sid tid e.target, e.relationship, e.metadata)

/-- True when `e` touches node `i`. -/
def incident (i : String) (e : MemoryEdge) : Bool :=
  e.source == i || e.target == i

/-- The edges appended by the predecessor loop of `merge_nodes`, flattened. -/
def predAdds (es : List MemoryEdge) (sid tid : String) (now : Time) : List MemoryEdge :=
  (predecessorIds es sid).flatMap (fun p => (edgesFromTo es p sid).map (fun e =>
    { source := p, target := tid, relationship := e.relationship,
      metadata := e.metadata, created_at := now }))

/-- The edges appended by the successor loop of `merge_nodes`, flattened. -/
def succAdds (es : List MemoryEdge) (sid tid : String) (now : Time) : List MemoryEdge :=
  (successorIds es sid).flatMap (fun c => (edgesFromTo es sid c).map (fun e =>
    { source := tid, target := c, relationship := e.relationship,
      metadata := e.metadata, created_at := now }))

/-- The uniform shape of a predecessor-loop copy. -/
def predCopy (tid : String) (now : Time) (e : MemoryEdge) : MemoryEdge :=
  { source := e.source, target := tid, relationship := e.relationship,
    metadata := e.metadata, created_at := now }

/-- The uniform shape of a successor-loop copy. -/
def succCopy (tid : String) (now : Time) (e : MemoryEdge) : MemoryEdge :=
  { source := tid, target := e.target, relationship := e.relationship,
    metadata := e.metadata, created_at := now }

/-! ### Generic helper lemmas -/

theorem setAdd_mem (l : List String) (y x : String) :
    x ∈ setAdd l y ↔ x ∈ l ∨ x = y := by
  unfold setAdd
  by_cases h : y ∈ l
  · simp only [if_pos h]
    constructor
    · exact fun hx => .inl hx
    · rintro (hx | rfl) <;> assumption
  · simp [if_neg h]

theorem setUnion_mem (xs : List String) (l : List String) (x : String) :
    x ∈ setUnion l xs ↔ x ∈ l ∨ x ∈ xs := by
  induction xs generalizing l with
  | nil => simp [setUnion]
  | cons y ys ih =>
    show x ∈ setUnion (setAdd l y) ys ↔ _
    rw [ih, setAdd_mem]
    simp [or_assoc]

theorem nodeSetAdd_mem (l : List MemoryNode) (y x : MemoryNode) :
    x ∈ nodeSetAdd l y ↔ x ∈ l ∨ x = y := by
  unfold nodeSetAdd
  by_cases h : y ∈ l
  · simp only [if_pos h]
    constructor
    · exact fun hx => .inl hx
    · rintro (hx | rfl) <;> assumption
  · simp [if_neg h]

theorem nodeSetUnion_mem (xs : List MemoryNode) (l : List MemoryNode) (x : MemoryNode) :
    x ∈ nodeSetUnion l xs ↔ x ∈ l ∨ x ∈ xs := by
  induction xs generalizing l with
  | nil => simp [nodeSetUnion]
  | cons y ys ih =>
    show x ∈ nodeSetUnion (nodeSetAdd l y) ys ↔ _
    rw [ih, nodeSetAdd_mem]
    simp [or_assoc]

theorem hasNode_iff (g : MemoryGraph) (i : String) :
    g.hasNode i = true ↔ ∃ n ∈ g.nodes, n.id = i := by
  unfold MemoryGraph.hasNode
  simp [List.any_eq_true]

theorem findNode_eq_some_iff_aux (l : List MemoryNode) (i : String) (n : MemoryNode) :
    l.find? (fun m => m.id == i) = some n → n ∈ l ∧ n.id = i := by
  intro h
  refine ⟨List.mem_of_find?_eq_some h, ?_⟩
  have := List.find?_some h
  simpa using this

theorem findNode_isSome_of_hasNode (g : MemoryGraph) (i : String) :
    g.hasNode i = true → ∃ n, g.findNode i = some n := by
  intro h
  unfold MemoryGraph.findNode
  rw [hasNode_iff] at h
  obtain ⟨n, hn, hid⟩ := h
  have : (g.nodes.find? (fun m => m.id == i)).isSome := by
    apply List.find?_isSome.mpr
    exact ⟨n, hn, by simp [hid]⟩
  obtain ⟨m, hm⟩ := Option.isSome_iff_exists.mp this
  exact ⟨m, hm⟩

/-- Pointwise congruence for `flatMap`. -/
theorem flatMap_congr_mem {α β : Type} (l : List α) (f h : α → List β)
    (hfg : ∀ a ∈ l, f a = h a) : l.flatMap f = l.flatMap h := by
  induction l with
  | nil => rfl
  | cons a as ih =>
    simp only [List.flatMap_cons]
    rw [hfg a (by simp), ih (fun a ha => hfg a (by simp [ha]))]

/-- Partitioning a list by a key: concatenating, over any duplicate-free
cover of the occurring keys, the sublists with each key is a permutation
of the list. -/
theorem bind_filter_perm {α β : Type} [DecidableEq β] (ks : List β) (l : List α)
    (f : α → β) (hnd : ks.Nodup) (hcov : ∀ a ∈ l, f a ∈ ks) :
    (ks.flatMap fun k => l.filter (fun a => f a == k)).Perm l := by
  induction ks generalizing l with
  | nil =>
    have : l = [] := by
      cases l with
      | nil => rfl
      | cons a as => exact absurd (hcov a (by simp)) (by simp)
    simp [this]
  | cons k ks ih =>
    simp only [List.flatMap_cons]
    have hnd' : ks.Nodup := (List.nodup_cons.mp hnd).2
    have hknot : k ∉ ks := (List.nodup_cons.mp hnd).1
    have hrw : (ks.flatMap fun k' => l.filter (fun a => f a == k')) =
        (ks.flatMap fun k' => (l.filter (fun a => !(f a == k))).filter (fun a => f a == k')) := by
      apply flatMap_congr_mem
      intro k' hk'
      rw [List.filter_filter]
      apply List.filter_congr
      intro a _
      by_cases h : f a = k'
      · have hkk : k' ≠ k := fun hc => hknot (hc ▸ hk')
        have hfa : f a ≠ k := fun hc => hkk (h.symm.trans hc)
        simp [h, hfa, hkk]
      · simp [h]
    rw [hrw]
    have hcov' : ∀ a ∈ l.filter (fun a => !(f a == k)), f a ∈ ks := by
      intro a ha
      have hmem := List.mem_of_mem_filter ha
      have hne : ¬ (f a = k) := by
        have := List.of_mem_filter ha
        simpa using this
      rcases List.mem_cons.mp (hcov a hmem) with h | h
      · exact absurd h hne
      · exact h
    refine List.Perm.trans (List.Perm.append_left _ (ih _ hnd' hcov')) ?_
    exact List.filter_append_perm _ l

/-- Splitting a filter over a disjunction of tests. -/
theorem filter_or_perm {α : Type} (p q : α → Bool) (l : List α) :
    (l.filter (fun a => p a || q a)).Perm
      (l.filter p ++ l.filter (fun a => q a && !p a)) := by
  induction l with
  | nil => simp
  | cons a as ih =>
    by_cases hp : p a
    · simpa [hp] using ih.cons a
    · by_cases hq : q a
      · simp only [List.filter_cons, hp, hq]
        simpa [hp, hq] using List.Perm.trans (ih.cons a) List.perm_middle.symm
      · simpa [hp, hq] using ih

/-- Splitting a filter over a case distinction on a second test. -/
theorem filter_and_perm {α : Type} (p q : α → Bool) (l : List α) :
    (l.filter p).Perm
      (l.filter (fun a => p a && q a) ++ l.filter (fun a => p a && !q a)) := by
  have h1 : l.filter p = l.filter (fun a => (p a && q a) || (p a && !q a)) := by
    apply List.filter_congr
    intro a _
    by_cases hp : p a <;> by_cases hq : q a <;> simp [hp, hq]
  rw [h1]
  refine (filter_or_perm _ _ l).trans ?_
  apply List.Perm.append_left
  apply List.Perm.of_eq
  apply List.filter_congr
  intro a _
  by_cases hp : p a <;> by_cases hq : q a <;> simp [hp, hq]

/-! ### Characterizing `merge_nodes` -/

theorem add_edge_ok (g : MemoryGraph) (a b : String) (rel : RelationshipType)
    (meta : Meta) (now : Time) (ha : g.hasNode a = true) (hb : g.hasNode b = true) :
    g.add_edge a b rel meta now =
      .ok { g with edges := g.edges ++
        [{ source := a, target := b, relationship := rel, metadata := meta,
           created_at := now }] } := by
  unfold MemoryGraph.add_edge
  simp [ha, hb]

theorem foldlM_add_edge_ok (a b : String) (now : Time) (es : List MemoryEdge) :
    ∀ (gc : MemoryGraph), gc.hasNode a = true → gc.hasNode b = true →
    es.foldlM (fun gi e => gi.add_edge a b e.relationship e.metadata now) gc =
      .ok { gc with edges := gc.edges ++ es.map (fun e =>
        { source := a, target := b, relationship := e.relationship,
          metadata := e.metadata, created_at := now }) } := by
  induction es with
  | nil =>
    intro gc _ _
    simp only [List.foldlM_nil, List.map_nil, List.append_nil]
    rfl
  | cons e es ih =>
    intro gc ha hb
    rw [List.foldlM_cons, add_edge_ok gc a b e.relationship e.metadata now ha hb]
    set gc' : MemoryGraph := { gc with edges := gc.edges ++
      [{ source := a, target := b, relationship := e.relationship,
         metadata := e.metadata, created_at := now }] } with hgc'
    have ha' : gc'.hasNode a = true := ha
    have hb' : gc'.hasNode b = true := hb
    show (es.foldlM _ gc') = _
    rw [ih gc' ha' hb']
    simp [hgc', List.append_assoc]

theorem filter_and_comm {α : Type} (p q : α → Bool) (l : List α) :
    l.filter (fun a => p a && q a) = l.filter (fun a => q a && p a) := by
  apply List.filter_congr
  intro a _
  by_cases hp : p a <;> by_cases hq : q a <;> simp [hp, hq]

theorem edgesFromTo_append (es fs : List MemoryEdge) (a b : String) :
    edgesFromTo (es ++ fs) a b = edgesFromTo es a b ++ edgesFromTo fs a b :=
  List.filter_append _ _

/-- The predecessor loop of `merge_nodes`: every `add_edge` succeeds and
the net effect is appending `predAdds` (the appended copies never enter
the multi-edge cells the loop reads, since their target is `tid ≠ sid`). -/
theorem predPhase_eq (sid tid : String) (now : Time) (hne : tid ≠ sid)
    (base : List MemoryEdge) (ks : List String) :
    ∀ (gc : MemoryGraph),
      (∀ p, edgesFromTo gc.edges p sid = edgesFromTo base p sid) →
      (∀ p ∈ ks, gc.hasNode p = true) → gc.hasNode tid = true →
      ks.foldlM (fun gc2 pred_id =>
          (edgesFromTo gc2.edges pred_id sid).foldlM
            (fun gi e => gi.add_edge pred_id tid e.relationship e.metadata now) gc2) gc =
        .ok { gc with edges := gc.edges ++ ks.flatMap (fun p =>
          (edgesFromTo base p sid).map (fun e =>
            { source := p, target := tid, relationship := e.relationship,
              metadata := e.metadata, created_at := now })) } := by
  induction ks with
  | nil =>
    intro gc _ _ _
    simp only [List.foldlM_nil, List.flatMap_nil, List.append_nil]
    rfl
  | cons k ks ih =>
    intro gc hinv hks htid
    rw [List.foldlM_cons,
      foldlM_add_edge_ok k tid now (edgesFromTo gc.edges k sid) gc (hks k (by simp)) htid]
    show (ks.foldlM _ _) = _
    set adds := (edgesFromTo gc.edges k sid).map (fun e =>
      { source := k, target := tid, relationship := e.relationship,
        metadata := e.metadata, created_at := now : MemoryEdge }) with hadds
    have haddsnil : ∀ p, edgesFromTo adds p sid = [] := by
      intro p
      apply List.filter_eq_nil_iff.mpr
      intro e he
      rw [hadds] at he
      obtain ⟨e0, _, rfl⟩ := List.mem_map.mp he
      simp [hne]
    have hinv' : ∀ p, edgesFromTo ({ gc with edges := gc.edges ++ adds } : MemoryGraph).edges p sid =
        edgesFromTo base p sid := by
      intro p
      show edgesFromTo (gc.edges ++ adds) p sid = _
      rw [edgesFromTo_append, haddsnil, List.append_nil, hinv]
    rw [ih _ hinv' (fun p hp => hks p (by simp [hp])) htid]
    simp only [hadds, hinv, List.flatMap_cons, List.append_assoc]

/-- The successor loop of `merge_nodes`: every `add_edge` succeeds and the
net effect is appending `succAdds` of the edge list the loop started from
(the appended copies have source `tid ≠ sid`, so the loop never reads
them). -/
theorem succPhase_eq (sid tid : String) (now : Time) (hne : tid ≠ sid)
    (base : List MemoryEdge) (ks : List String) :
    ∀ (gc : MemoryGraph),
      (∀ c, edgesFromTo gc.edges sid c = edgesFromTo base sid c) →
      (∀ c ∈ ks, gc.hasNode c = true) → gc.hasNode tid = true →
      ks.foldlM (fun gc2 succ_id =>
          (edgesFromTo gc2.edges sid succ_id).foldlM
            (fun gi e => gi.add_edge tid succ_id e.relationship e.metadata now) gc2) gc =
        .ok { gc with edges := gc.edges ++ ks.flatMap (fun c =>
          (edgesFromTo base sid c).map (fun e =>
            { source := tid, target := c, relationship := e.relationship,
              metadata := e.metadata, created_at := now })) } := by
  induction ks with
  | nil =>
    intro gc _ _ _
    simp only [List.foldlM_nil, List.flatMap_nil, List.append_nil]
    rfl
  | cons k ks ih =>
    intro gc hinv hks htid
    rw [List.foldlM_cons,
      foldlM_add_edge_ok tid k now (edgesFromTo gc.edges sid k) gc htid (hks k (by simp))]
    show (ks.foldlM _ _) = _
    set adds := (edgesFromTo gc.edges sid k).map (fun e =>
      { source := tid, target := k, relationship := e.relationship,
        metadata := e.metadata, created_at := now : MemoryEdge }) with hadds
    have haddsnil : ∀ c, edgesFromTo adds sid c = [] := by
      intro c
      apply List.filter_eq_nil_iff.mpr
      intro e he
      rw [hadds] at he
      obtain ⟨e0, _, rfl⟩ := List.mem_map.mp he
      simp [hne]
    have hinv' : ∀ c, edgesFromTo ({ gc with edges := gc.edges ++ adds } : MemoryGraph).edges sid c =
        edgesFromTo base sid c := by
      intro c
      show edgesFromTo (gc.edges ++ adds) sid c = _
      rw [edgesFromTo_append, haddsnil, List.append_nil, hinv]
    rw [ih _ hinv' (fun c hc => hks c (by simp [hc])) htid]
    simp only [hadds, hinv, List.flatMap_cons, List.append_assoc]

theorem except_ok_bind {ε α β : Type} (a : α) (f : α → Except ε β) :
    (Except.ok a >>= f) = f a := rfl

theorem findNode_some (g : MemoryGraph) (i : String) (n : MemoryNode)
    (h : g.findNode i = some n) : n ∈ g.nodes ∧ n.id = i :=
  findNode_eq_some_iff_aux g.nodes i n h

theorem hasNode_of_findNode (g : MemoryGraph) (i : String) (n : MemoryNode)
    (h : g.findNode i = some n) : g.hasNode i = true := by
  obtain ⟨hmem, hid⟩ := findNode_some g i n h
  exact (hasNode_iff g i).mpr ⟨n, hmem, hid⟩

theorem any_map_ids (l : List MemoryNode) (x : String) :
    (l.any fun n => n.id == x) = (l.map (fun n => n.id)).any (fun i => i == x) := by
  induction l with
  | nil => rfl
  | cons n l ih => simp [ih]

theorem hasNode_eq_ids_any (g : MemoryGraph) (x : String) :
    g.hasNode x = ((g.nodes.map (fun n => n.id)).any (fun i => i == x)) :=
  any_map_ids g.nodes x

theorem replace_preserves_ids (l : List MemoryNode) (tid : String) (r : MemoryNode)
    (hr : r.id = tid) :
    (l.map (fun m => if m.id == tid then r else m)).map (fun m => m.id) =
      l.map (fun m => m.id) := by
  rw [List.map_map]
  apply List.map_congr_left
  intro m _
  by_cases h : m.id = tid
  · simp [Function.comp, h, hr]
  · simp [Function.comp, h]

theorem mem_predecessorIds (es : List MemoryEdge) (sid p : String) :
    p ∈ predecessorIds es sid ↔ ∃ e ∈ es, e.target = sid ∧ e.source = p := by
  unfold predecessorIds
  rw [List.mem_dedup, List.mem_map]
  constructor
  · rintro ⟨e, he, rfl⟩
    exact ⟨e, List.mem_of_mem_filter he, by simpa using List.of_mem_filter he, rfl⟩
  · rintro ⟨e, he, ht, rfl⟩
    exact ⟨e, List.mem_filter.mpr ⟨he, by simp [ht]⟩, rfl⟩

theorem mem_successorIds (es : List MemoryEdge) (sid c : String) :
    c ∈ successorIds es sid ↔ ∃ e ∈ es, e.source = sid ∧ e.target = c := by
  unfold successorIds
  rw [List.mem_dedup, List.mem_map]
  constructor
  · rintro ⟨e, he, rfl⟩
    exact ⟨e, List.mem_of_mem_filter he, by simpa using List.of_mem_filter he, rfl⟩
  · rintro ⟨e, he, hs, rfl⟩
    exact ⟨e, List.mem_filter.mpr ⟨he, by simp [hs]⟩, rfl⟩

/-- Full characterization of a successful `merge_nodes` call: the exact
result graph, with the edge store written as original edges plus the two
waves of copies, filtered for incidence to the removed source. -/
theorem merge_nodes_eq (g : MemoryGraph) (sid tid : String) (now : Time)
    (source target : MemoryNode)
    (hs : g.findNode sid = some source) (ht : g.findNode tid = some target)
    (hne : sid ≠ tid) (hwf : g.EdgesWF) :
    g.merge_nodes sid tid now = .ok
      { nodes := (g.nodes.map (fun m => if m.id == tid then mergeRecord target source else m)).filter
          (fun m => !(m.id == sid)),
        edges := ((g.edges ++ predAdds g.edges sid tid now) ++
            succAdds (g.edges ++ predAdds g.edges sid tid now) sid tid now).filter
          (fun e => !(e.source == sid) && !(e.target == sid)) } := by
  have htid_id : target.id = tid := (findNode_some g tid target ht).2
  set g1 : MemoryGraph :=
    { g with nodes := g.nodes.map (fun m => if m.id == tid then mergeRecord target source else m) }
    with hg1
  have hids : g1.nodes.map (fun m => m.id) = g.nodes.map (fun m => m.id) := by
    rw [hg1]
    exact replace_preserves_ids g.nodes tid (mergeRecord target source)
      (by simp [mergeRecord, htid_id])
  have hhas1 : ∀ x, g1.hasNode x = g.hasNode x := by
    intro x
    rw [hasNode_eq_ids_any, hasNode_eq_ids_any, hids]
  have htid1 : g1.hasNode tid = true := by
    rw [hhas1]; exact hasNode_of_findNode g tid target ht
  have hpred : (predecessorIds g1.edges sid).foldlM
      (fun gc2 pred_id =>
        (edgesFromTo gc2.edges pred_id sid).foldlM
          (fun gi e => gi.add_edge pred_id tid e.relationship e.metadata now) gc2) g1 =
      .ok { g1 with edges := g.edges ++ predAdds g.edges sid tid now } := by
    have := predPhase_eq sid tid now (Ne.symm hne) g.edges (predecessorIds g.edges sid) g1
      (fun p => rfl)
      (by
        intro p hp
        rw [hhas1]
        obtain ⟨e, he, het, hes⟩ := (mem_predecessorIds g.edges sid p).mp hp
        exact hes ▸ (hwf e he).1)
      htid1
    exact this
  set es2 : List MemoryEdge := g.edges ++ predAdds g.edges sid tid now with hes2
  have hsucc : (successorIds es2 sid).foldlM
      (fun gc2 succ_id =>
        (edgesFromTo gc2.edges sid succ_id).foldlM
          (fun gi e => gi.add_edge tid succ_id e.relationship e.metadata now) gc2)
      ({ g1 with edges := es2 } : MemoryGraph) =
      .ok { g1 with edges := es2 ++ succAdds es2 sid tid now } := by
    have := succPhase_eq sid tid now (Ne.symm hne) es2 (successorIds es2 sid)
      ({ g1 with edges := es2 } : MemoryGraph)
      (fun c => rfl)
      (by
        intro c hc
        have hhas2 : ({ g1 with edges := es2 } : MemoryGraph).hasNode c = g.hasNode c := hhas1 c
        rw [hhas2]
        obtain ⟨e, he, hesrc, hetgt⟩ := (mem_successorIds es2 sid c).mp hc
        rcases List.mem_append.mp he with he1 | he2
        · exact hetgt ▸ (hwf e he1).2
        · obtain ⟨p, _, e0, _, rfl⟩ := by
            simpa [predAdds, List.mem_flatMap, List.mem_map] using he2
          subst hetgt
          exact hasNode_of_findNode g tid target ht)
      htid1
    exact this
  simp only [MemoryGraph.merge_nodes, hs, ht, ← hg1]
  rw [hpred, except_ok_bind]
  rw [hsucc, except_ok_bind]
  rfl

theorem edgesFromTo_eq_filter_filter (es : List MemoryEdge) (a b : String) :
    edgesFromTo es a b = (es.filter (fun e => e.target == b)).filter (fun e => e.source == a) := by
  unfold edgesFromTo
  rw [List.filter_filter]

theorem edgesFromTo_eq_filter_filter_src (es : List MemoryEdge) (a b : String) :
    edgesFromTo es a b = (es.filter (fun e => e.source == a)).filter (fun e => e.target == b) := by
  unfold edgesFromTo
  rw [List.filter_filter]
  exact filter_and_comm _ _ es

theorem predAdds_perm (es : List MemoryEdge) (sid tid : String) (now : Time) :
    (predAdds es sid tid now).Perm
      ((es.filter (fun e => e.target == sid)).map (predCopy tid now)) := by
  unfold predAdds
  have h1 : (predecessorIds es sid).flatMap (fun p => (edgesFromTo es p sid).map (fun e =>
      ({ source := p, target := tid, relationship := e.relationship,
         metadata := e.metadata, created_at := now } : MemoryEdge))) =
      (predecessorIds es sid).flatMap (fun p => (edgesFromTo es p sid).map (predCopy tid now)) := by
    apply flatMap_congr_mem
    intro p _
    apply List.map_congr_left
    intro e he
    have hsrc : e.source = p := by
      have := List.of_mem_filter (p := fun e : MemoryEdge => e.source == p && e.target == sid) he
      simp at this
      exact this.1
    simp [predCopy, hsrc]
  rw [h1]
  have h2 : (predecessorIds es sid).flatMap (fun p => (edgesFromTo es p sid).map (predCopy tid now)) =
      ((predecessorIds es sid).flatMap (fun p =>
        (es.filter (fun e => e.target == sid)).filter (fun e => e.source == p))).map (predCopy tid now) := by
    rw [List.map_flatMap]
    apply flatMap_congr_mem
    intro p _
    rw [edgesFromTo_eq_filter_filter]
  rw [h2]
  apply List.Perm.map
  apply bind_filter_perm
  · exact List.nodup_dedup _
  · intro e he
    exact List.mem_dedup.mpr (List.mem_map_of_mem (fun e => e.source) he)

theorem succAdds_perm (es : List MemoryEdge) (sid tid : String) (now : Time) :
    (succAdds es sid tid now).Perm
      ((es.filter (fun e => e.source == sid)).map (succCopy tid now)) := by
  unfold succAdds
  have h1 : (successorIds es sid).flatMap (fun c => (edgesFromTo es sid c).map (fun e =>
      ({ source := tid, target := c, relationship := e.relationship,
         metadata := e.metadata, created_at := now } : MemoryEdge))) =
      (successorIds es sid).flatMap (fun c => (edgesFromTo es sid c).map (succCopy tid now)) := by
    apply flatMap_congr_mem
    intro c _
    apply List.map_congr_left
    intro e he
    have htgt : e.target = c := by
      have := List.of_mem_filter (p := fun e : MemoryEdge => e.source == sid && e.target == c) he
      simp at this
      exact this.2
    simp [succCopy, htgt]
  rw [h1]
  have h2 : (successorIds es sid).flatMap (fun c => (edgesFromTo es sid c).map (succCopy tid now)) =
      ((successorIds es sid).flatMap (fun c =>
        (es.filter (fun e => e.source == sid)).filter (fun e => e.target == c))).map (succCopy tid now) := by
    rw [List.map_flatMap]
    apply flatMap_congr_mem
    intro c _
    rw [edgesFromTo_eq_filter_filter_src]
  rw [h2]
  apply List.Perm.map
  apply bind_filter_perm
  · exact List.nodup_dedup _
  · intro e he
    exact List.mem_dedup.mpr (List.mem_map_of_mem (fun e => e.target) he)

theorem perm_rotate3 {α : Type} (x y z : List α) : (x ++ (y ++ z)).Perm ((z ++ y) ++ x) :=
  (List.perm_append_comm).trans (List.Perm.append List.perm_append_comm (List.Perm.refl x))

/-- The preserved projections of the edges surviving `merge_nodes` are,
as a multiset, the untouched edges plus the endpoint-substituted images
of every edge that was incident to the source. -/
theorem merge_edges_perm (es : List MemoryEdge) (sid tid : String) (now : Time)
    (hne : tid ≠ sid) :
    ((((es ++ predAdds es sid tid now) ++
        succAdds (es ++ predAdds es sid tid now) sid tid now).filter
          (fun e => !(e.source == sid) && !(e.target == sid))).map edgeMeta).Perm
      (((es.filter (fun e => !(e.source == sid) && !(e.target == sid))).map edgeMeta) ++
        ((es.filter (fun e => e.source == sid || e.target == sid)).map (edgeMetaSubst sid tid))) := by
  have htid : (tid == sid) = false := by simp [hne]
  set P := predAdds es sid tid now with hPdef
  set Q := succAdds (es ++ P) sid tid now with hQdef
  set A := es.filter (fun e => !(e.source == sid) && !(e.target == sid)) with hAdef
  set S := es.filter (fun e => (e.source == sid) && (e.target == sid)) with hSdef
  set O := es.filter (fun e => (e.source == sid) && !(e.target == sid)) with hOdef
  set I := es.filter (fun e => (e.target == sid) && !(e.source == sid)) with hIdef
  -- the copies made by the predecessor loop, filtered and projected
  have hPfilt : ((P.filter (fun e => !(e.source == sid) && !(e.target == sid))).map edgeMeta).Perm
      (I.map (edgeMetaSubst sid tid)) := by
    have h1 := (predAdds_perm es sid tid now).filter
      (fun e => !(e.source == sid) && !(e.target == sid))
    refine (h1.map edgeMeta).trans ?_
    have h2 : ((es.filter (fun e => e.target == sid)).map (predCopy tid now)).filter
        (fun e => !(e.source == sid) && !(e.target == sid)) =
        ((es.filter (fun e => e.target == sid)).filter (fun e => !(e.source == sid))).map
          (predCopy tid now) := by
      rw [List.filter_map]
      congr 1
      apply List.filter_congr
      intro e _
      simp [Function.comp, predCopy, htid]
    rw [h2, List.filter_filter]
    have h3 : es.filter (fun e => !(e.source == sid) && (e.target == sid)) = I := by
      rw [hIdef]
      exact filter_and_comm _ _ es
    rw [h3]
    apply List.Perm.of_eq
    rw [List.map_map]
    apply List.map_congr_left
    intro e he
    have hp := List.of_mem_filter he
    simp at hp
    simp [Function.comp, edgeMeta, predCopy, edgeMetaSubst, substId, hp.1, hp.2]
  -- the copies made by the successor loop, filtered and projected
  have hQfilt : ((Q.filter (fun e => !(e.source == sid) && !(e.target == sid))).map edgeMeta).Perm
      (O.map (edgeMetaSubst sid tid) ++ S.map (edgeMetaSubst sid tid)) := by
    have h1 := (succAdds_perm (es ++ P) sid tid now).filter
      (fun e => !(e.source == sid) && !(e.target == sid))
    refine (h1.map edgeMeta).trans ?_
    have h2 : (((es ++ P).filter (fun e => e.source == sid)).map (succCopy tid now)).filter
        (fun e => !(e.source == sid) && !(e.target == sid)) =
        (((es ++ P).filter (fun e => e.source == sid)).filter (fun e => !(e.target == sid))).map
          (succCopy tid now) := by
      rw [List.filter_map]
      congr 1
      apply List.filter_congr
      intro e _
      simp [Function.comp, succCopy, htid]
    rw [h2, List.filter_append, List.filter_append, List.map_append, List.map_append]
    -- first block: original outgoing edges of sid
    have hO : ((((es.filter (fun e => e.source == sid)).filter (fun e => !(e.target == sid))).map
        (succCopy tid now)).map edgeMeta) = O.map (edgeMetaSubst sid tid) := by
      rw [List.filter_filter]
      have h3 : es.filter (fun e => !(e.target == sid) && (e.source == sid)) = O := by
        rw [hOdef]
        exact filter_and_comm _ _ es
      rw [h3, List.map_map]
      apply List.map_congr_left
      intro e he
      have hp := List.of_mem_filter he
      simp at hp
      simp [Function.comp, edgeMeta, succCopy, edgeMetaSubst, substId, hp.1, hp.2]
    -- second block: the temporary copies of the self-loops of sid
    have hS : ((((P.filter (fun e => e.source == sid)).filter (fun e => !(e.target == sid))).map
        (succCopy tid now)).map edgeMeta).Perm (S.map (edgeMetaSubst sid tid)) := by
      have hps : (P.filter (fun e => e.source == sid)).Perm (S.map (predCopy tid now)) := by
        refine ((predAdds_perm es sid tid now).filter (fun e => e.source == sid)).trans ?_
        rw [List.filter_map]
        have h4 : (es.filter (fun e => e.target == sid)).filter
            ((fun e => e.source == sid) ∘ (predCopy tid now)) =
            (es.filter (fun e => e.target == sid)).filter (fun e => e.source == sid) := by
          apply List.filter_congr
          intro e _
          simp [Function.comp, predCopy]
        rw [h4, List.filter_filter]
      have hps2 : ((P.filter (fun e => e.source == sid)).filter (fun e => !(e.target == sid))).Perm
          (S.map (predCopy tid now)) := by
        refine (hps.filter (fun e => !(e.target == sid))).trans ?_
        rw [List.filter_map]
        have h6 : S.filter ((fun e => !(e.target == sid)) ∘ (predCopy tid now)) = S := by
          have : S.filter ((fun e => !(e.target == sid)) ∘ (predCopy tid now)) =
              S.filter (fun _ => true) := by
            apply List.filter_congr
            intro e _
            simp [Function.comp, predCopy, htid]
          rw [this, List.filter_true]
        rw [h6]
      refine ((hps2.map (succCopy tid now)).map edgeMeta).trans ?_
      apply List.Perm.of_eq
      rw [List.map_map, List.map_map]
      apply List.map_congr_left
      intro e he
      have hp := List.of_mem_filter he
      simp at hp
      simp [Function.comp, edgeMeta, succCopy, predCopy, edgeMetaSubst, substId, hp.1, hp.2]
    exact List.Perm.append (List.Perm.of_eq hO) hS
  -- assemble
  have hsplit : ((es ++ P) ++ Q).filter (fun e => !(e.source == sid) && !(e.target == sid)) =
      (A ++ P.filter (fun e => !(e.source == sid) && !(e.target == sid))) ++
        Q.filter (fun e => !(e.source == sid) && !(e.target == sid)) := by
    rw [List.filter_append, List.filter_append, hAdef]
  rw [hsplit, List.map_append, List.map_append]
  refine (List.Perm.append (List.Perm.append (List.Perm.refl (A.map edgeMeta)) hPfilt) hQfilt).trans ?_
  -- right-hand side: partition the incident edges into S, O, I
  have hInc : (es.filter (fun e => e.source == sid || e.target == sid)).Perm
      (es.filter (fun e => e.source == sid) ++ I) := by
    rw [hIdef]
    exact filter_or_perm _ _ es
  have hSrc : (es.filter (fun e => e.source == sid)).Perm (S ++ O) := by
    rw [hSdef, hOdef]
    exact filter_and_perm _ _ es
  have hRHS : ((es.filter (fun e => e.source == sid || e.target == sid)).map
      (edgeMetaSubst sid tid)).Perm
      ((S.map (edgeMetaSubst sid tid) ++ O.map (edgeMetaSubst sid tid)) ++
        I.map (edgeMetaSubst sid tid)) := by
    refine (hInc.map _).trans ?_
    rw [List.map_append]
    refine List.Perm.append ?_ (List.Perm.refl _)
    refine (hSrc.map _).trans ?_
    rw [List.map_append]
  refine List.Perm.trans ?_ (List.Perm.append_left (A.map edgeMeta) hRHS.symm)
  rw [List.append_assoc]
  apply List.Perm.append_left
  exact perm_rotate3 _ _ _

theorem dictLookup_nil (k : String) : dictLookup [] k = none := rfl

theorem dictLookup_cons (p : String × String) (m : Meta) (k : String) :
    dictLookup (p :: m) k = if p.1 == k then some p.2 else dictLookup m k := by
  unfold dictLookup
  by_cases h : p.1 = k
  · have hb : (p.1 == k) = true := by simp [h]
    rw [List.find?_cons_of_pos (p := fun q : String × String => q.1 == k) m hb, hb]
    simp
  · have hb : (p.1 == k) = false := by simp [h]
    rw [List.find?_cons_of_neg (p := fun q : String × String => q.1 == k) m (by simp [hb]), hb]
    simp

theorem dictLookup_eq_none (s : Meta) (k : String)
    (h : k ∉ s.map (fun p => p.1)) : dictLookup s k = none := by
  unfold dictLookup
  rw [List.find?_eq_none.mpr]
  · rfl
  · intro p hp
    simp only [beq_iff_eq]
    intro hc
    exact h (hc ▸ List.mem_map_of_mem (fun p => p.1) hp)

theorem dictLookup_map_replace (m : Meta) (k v k' : String) :
    dictLookup (m.map (fun p => if p.1 == k then (k, v) else p)) k' =
      if k' = k ∧ (m.any (fun p => p.1 == k)) = true then some v else dictLookup m k' := by
  induction m with
  | nil => simp [dictLookup]
  | cons p m ih =>
    by_cases hp : p.1 = k
    · simp only [List.map_cons, if_pos (by simp [hp] : (p.1 == k) = true)]
      rw [dictLookup_cons, dictLookup_cons]
      by_cases hk : k' = k
      · simp [hk, hp]
      · have : (k == k') = false := by simp [Ne.symm hk]
        rw [this]
        simp only [Bool.false_eq_true, if_false]
        rw [ih]
        have hpk : (p.1 == k') = false := by simp [hp, Ne.symm hk]
        simp [hk, hpk]
    · simp only [List.map_cons, if_neg (by simp [hp] : ¬ (p.1 == k) = true)]
      rw [dictLookup_cons, dictLookup_cons]
      by_cases hpk : p.1 = k'
      · have hne : ¬ (k' = k) := fun hc => hp (hpk.trans hc)
        simp [hpk, hne]
      · have : (p.1 == k') = false := by simp [hpk]
        rw [this]
        simp only [Bool.false_eq_true, if_false]
        rw [ih]
        have hb : (p.1 == k) = false := by simp [hp]
        rw [List.any_cons, hb, Bool.false_or]

theorem dictLookup_dictInsert (m : Meta) (k v k' : String) :
    dictLookup (dictInsert m k v) k' = if k' = k then some v else dictLookup m k' := by
  unfold dictInsert
  by_cases hc : m.any (fun p => p.1 == k) = true
  · rw [if_pos hc, dictLookup_map_replace]
    by_cases hk : k' = k
    · simp [hk, hc]
    · simp [hk]
  · rw [if_neg hc]
    unfold dictLookup
    rw [List.find?_append]
    by_cases hk : k' = k
    · have hnone : m.find? (fun p => p.1 == k') = none := by
        rw [List.find?_eq_none]
        intro p hp
        simp only [beq_iff_eq]
        intro he
        exact hc (List.any_eq_true.mpr ⟨p, hp, by simp [he, hk]⟩)
      rw [hnone]
      simp [hk]
    · have hlast : ([(k, v)].find? (fun p => p.1 == k')) = none := by
        simp [Ne.symm hk]
      rw [hlast]
      simp [hk, dictLookup]

/-- Overlay semantics of `dict.update`: on duplicate-free source keys, a
key bound in the source takes the source's value, any other key keeps the
target's binding. -/
theorem dictLookup_dictUpdate (s : Meta) (t : Meta) (k : String)
    (hnd : (s.map (fun p => p.1)).Nodup) :
    dictLookup (dictUpdate t s) k =
      match dictLookup s k with
      | some v => some v
      | none => dictLookup t k := by
  induction s generalizing t with
  | nil => simp [dictUpdate, dictLookup_nil]
  | cons p s ih =>
    rw [List.map_cons, List.nodup_cons] at hnd
    show dictLookup (dictUpdate (dictInsert t p.1 p.2) s) k = _
    rw [ih _ hnd.2, dictLookup_cons]
    by_cases hk : p.1 = k
    · have hs : dictLookup s k = none := dictLookup_eq_none s k (hk ▸ hnd.1)
      rw [hs]
      have hb : (p.1 == k) = true := by simp [hk]
      rw [hb]
      simp [dictLookup_dictInsert, hk]
    · have hb : (p.1 == k) = false := by simp [hk]
      rw [hb]
      simp only [Bool.false_eq_true, if_false]
      cases hsk : dictLookup s k with
      | some v => rfl
      | none =>
        rw [dictLookup_dictInsert, if_neg (fun h : k = p.1 => hk h.symm)]

/-- Finding by id over the node list after the node update of `merge_nodes` and
source removal: the target id resolves to the merged record. -/
theorem find?_replace_filter (l : List MemoryNode) (a b : String) (r : MemoryNode)
    (hab : b ≠ a) (hrb : r.id = b) (hex : ∃ m ∈ l, m.id = b) :
    ((l.map (fun m => if m.id == b then r else m)).filter
        (fun m => !(m.id == a))).find? (fun m => m.id == b) = some r := by
  induction l with
  | nil => simp at hex
  | cons m l ih =>
    by_cases hm : m.id = b
    · simp only [List.map_cons, if_pos (by simp [hm] : (m.id == b) = true)]
      have hkeep : (!(r.id == a)) = true := by simp [hrb, hab]
      rw [List.filter_cons_of_pos (p := fun m : MemoryNode => !(m.id == a)) hkeep]
      rw [List.find?_cons_of_pos (p := fun m : MemoryNode => m.id == b) _ (by simp [hrb])]
    · simp only [List.map_cons, if_neg (by simp [hm] : ¬ (m.id == b) = true)]
      have hex' : ∃ m2 ∈ l, m2.id = b := by
        obtain ⟨m2, hm2, hid⟩ := hex
        rcases List.mem_cons.mp hm2 with rfl | h2
        · exact absurd hid hm
        · exact ⟨m2, h2, hid⟩
      by_cases hma : m.id = a
      · rw [List.filter_cons_of_neg (p := fun m : MemoryNode => !(m.id == a)) (by simp [hma])]
        exact ih hex'
      · rw [List.filter_cons_of_pos (p := fun m : MemoryNode => !(m.id == a)) (by simp [hma])]
        rw [List.find?_cons_of_neg (p := fun m : MemoryNode => m.id == b) _ (by simp [hm])]
        exact ih hex'

/-- Finding by the removed id after `merge_nodes`: nothing matches. -/
theorem find?_filter_not_id (l : List MemoryNode) (a : String) :
    (l.filter (fun m => !(m.id == a))).find? (fun m => m.id == a) = none := by
  rw [List.find?_eq_none]
  intro m hm
  have := List.of_mem_filter hm
  simp at this
  simp [this]

/-! ### Claims -/

/-- C1: `FindNodes(queryText, nodeType, limit)` returns exactly the nodes
that pass an exact type-match filter (when `nodeType` is given) and a
case-insensitive substring-containment filter of `queryText` in `content`
(when `queryText` is given, with an empty or absent query matching every
node), sorted descending by the pair `(importance, access_count)` with
importance dominating and access_count breaking ties, then truncated to
the first `limit` elements: the result is the `limit`-prefix of a sorted
permutation of the filtered node list, its length is
`min limit (number of passing nodes)`, every returned node is a stored
node passing both filters, and when `limit` is at least the number of
passing nodes the result is exactly the passing nodes. -/
theorem find_nodes_matches_claim (g : MemoryGraph) (query : Option String)
    (node_type : Option NodeType) (limit : Nat) :
    ∃ sorted : List MemoryNode,
      sorted.Perm (g.nodes.filter (fun n => matchesType node_type n && matchesQuery query n)) ∧
      sorted.Sorted rankGE ∧
      g.find_nodes query node_type limit = sorted.take limit ∧
      (g.find_nodes query node_type limit).length =
        min limit (g.nodes.filter (fun n => matchesType node_type n && matchesQuery query n)).length ∧
      (∀ n ∈ g.find_nodes query node_type limit,
        n ∈ g.nodes ∧ matchesType node_type n = true ∧ matchesQuery query n = true) ∧
      ((g.nodes.filter (fun n => matchesType node_type n && matchesQuery query n)).length ≤ limit →
        (g.find_nodes query node_type limit).Perm
          (g.nodes.filter (fun n => matchesType node_type n && matchesQuery query n))) := by
  refine ⟨(g.nodes.filter (fun n => matchesType node_type n && matchesQuery query n)).insertionSort rankGE,
    List.perm_insertionSort rankGE _, List.sorted_insertionSort rankGE _, rfl, ?_, ?_, ?_⟩
  · show (List.take limit _).length = _
    rw [List.length_take, (List.perm_insertionSort rankGE _).length_eq]
  · intro n hn
    have hmem : n ∈ (g.nodes.filter (fun n => matchesType node_type n && matchesQuery query n)).insertionSort rankGE :=
      (List.take_sublist _ _).mem hn
    have hmem2 := (List.perm_insertionSort rankGE _).mem_iff.mp hmem
    have h1 := List.mem_of_mem_filter hmem2
    have h2 := List.of_mem_filter hmem2
    rw [Bool.and_eq_true] at h2
    exact ⟨h1, h2.1, h2.2⟩
  · intro hlen
    show (List.take limit _).Perm _
    rw [List.take_of_length_le (by rw [(List.perm_insertionSort rankGE _).length_eq]; exact hlen)]
    exact List.perm_insertionSort rankGE _

/-- Witness for C1 at the concrete two-node fixture: the query "meeting"
selects exactly the meeting node, the empty query returns both nodes ranked
by importance, and the claim instantiates at that graph. -/
theorem find_nodes_matches_claim_witness :
    (exGraph.find_nodes (some "meeting") none 5 = [exN2] ∧
      exGraph.find_nodes (some "") none 5 = [exN1, exN2]) ∧
    (∃ sorted : List MemoryNode,
      sorted.Perm (exGraph.nodes.filter (fun n => matchesType none n && matchesQuery (some "meeting") n)) ∧
      sorted.Sorted rankGE ∧
      exGraph.find_nodes (some "meeting") none 5 = sorted.take 5 ∧
      (exGraph.find_nodes (some "meeting") none 5).length =
        min 5 (exGraph.nodes.filter (fun n => matchesType none n && matchesQuery (some "meeting") n)).length ∧
      (∀ n ∈ exGraph.find_nodes (some "meeting") none 5,
        n ∈ exGraph.nodes ∧ matchesType none n = true ∧ matchesQuery (some "meeting") n = true) ∧
      ((exGraph.nodes.filter (fun n => matchesType none n && matchesQuery (some "meeting") n)).length ≤ 5 →
        (exGraph.find_nodes (some "meeting") none 5).Perm
          (exGraph.nodes.filter (fun n => matchesType none n && matchesQuery (some "meeting") n)))) :=
  ⟨by decide, find_nodes_matches_claim exGraph (some "meeting") none 5⟩

/-- C2: for existing distinct nodes, `MergeNodes(sourceId, targetId)` sets
the target's content to `target.content + "\n\n" + source.content`,
overlays the target's metadata with the source's (source keys win),
maxes the importance, adds the access counts, re-creates every edge
incident to the source with the target substituted for the source
(preserving relationship type and metadata, without deduplication — the
surviving edge projections are exactly, as a multiset, the untouched
edges plus one substituted copy per incident edge), and removes the
source together with all of its original edges.  (Stated for a
well-formed edge store and, for the metadata-overlay clause, source
metadata with duplicate-free keys, as produced by a Python dict.) -/
theorem merge_nodes_matches_claim (g : MemoryGraph) (source_id target_id : String)
    (now : Time) (source target : MemoryNode)
    (hs : g.findNode source_id = some source)
    (ht : g.findNode target_id = some target)
    (hne : source_id ≠ target_id)
    (hwf : g.EdgesWF) :
    ∃ g', g.merge_nodes source_id target_id now = .ok g' ∧
      g'.nodes = (g.nodes.map (fun m => if m.id == target_id then mergeRecord target source else m)).filter
        (fun m => !(m.id == source_id)) ∧
      g'.findNode target_id = some (mergeRecord target source) ∧
      g'.findNode source_id = none ∧
      (mergeRecord target source).content = target.content ++ "\n\n" ++ source.content ∧
      (mergeRecord target source).importance = max target.importance source.importance ∧
      (mergeRecord target source).access_count = target.access_count + source.access_count ∧
      ((source.metadata.map (fun p => p.1)).Nodup →
        ∀ k, dictLookup (mergeRecord target source).metadata k =
          match dictLookup source.metadata k with
          | some v => some v
          | none => dictLookup target.metadata k) ∧
      (g'.edges.map edgeMeta).Perm
        ((g.edges.filter (fun e => !(incident source_id e))).map edgeMeta ++
          (g.edges.filter (fun e => incident source_id e)).map (edgeMetaSubst source_id target_id)) ∧
      (∀ e ∈ g'.edges, incident source_id e = false) := by
  have heq := merge_nodes_eq g source_id target_id now source target hs ht hne hwf
  refine ⟨_, heq, rfl, ?_, ?_, rfl, rfl, rfl, ?_, ?_, ?_⟩
  · exact find?_replace_filter g.nodes source_id target_id (mergeRecord target source)
      (Ne.symm hne) (by simp [mergeRecord, (findNode_some g target_id target ht).2])
      ⟨target, (findNode_some g target_id target ht).1, (findNode_some g target_id target ht).2⟩
  · exact find?_filter_not_id _ source_id
  · intro hnd k
    exact dictLookup_dictUpdate source.metadata target.metadata k hnd
  · have h1 : g.edges.filter (fun e => !(incident source_id e)) =
        g.edges.filter (fun e => !(e.source == source_id) && !(e.target == source_id)) := by
      apply List.filter_congr
      intro e _
      simp [incident]
    have h2 : g.edges.filter (fun e => incident source_id e) =
        g.edges.filter (fun e => e.source == source_id || e.target == source_id) := by
      apply List.filter_congr
      intro e _
      rfl
    rw [h1, h2]
    exact merge_edges_perm g.edges source_id target_id now (Ne.symm hne)
  · intro e he
    have := List.of_mem_filter he
    simp at this
    simp [incident, this.1, this.2]

/-- Witness for C2 at the concrete two-node fixture with an `a → b` edge,
a `b → a` edge and a self-loop `a → a`: the merge succeeds, `a` is gone,
`b` holds the merged record, and the surviving edge projections are the
substituted copies. -/
theorem merge_nodes_matches_claim_witness :
    (exG2.findNode "a" = some exA ∧ exG2.findNode "b" = some exB ∧
      ("a" : String) ≠ "b" ∧ exG2.EdgesWF) ∧
    ∃ g', exG2.merge_nodes "a" "b" 7 = .ok g' ∧
      g'.findNode "b" = some (mergeRecord exB exA) ∧ g'.findNode "a" = none ∧
      (g'.edges.map edgeMeta).Perm
        ((exG2.edges.filter (fun e => !(incident "a" e))).map edgeMeta ++
          (exG2.edges.filter (fun e => incident "a" e)).map (edgeMetaSubst "a" "b")) := by
  have hwf : exG2.EdgesWF := by
    unfold MemoryGraph.EdgesWF
    decide
  refine ⟨⟨by decide, by decide, by decide, hwf⟩, ?_⟩
  obtain ⟨g', h1, _, h3, h4, _, _, _, _, h9, _⟩ :=
    merge_nodes_matches_claim exG2 "a" "b" 7 exA exB (by decide) (by decide) (by decide) hwf
  exact ⟨g', h1, h3, h4, h9⟩

theorem foldl_nodeSetUnion_mem (f : MemoryNode → List MemoryNode)
    (ms : List MemoryNode) (init : List MemoryNode) (x : MemoryNode) :
    x ∈ ms.foldl (fun acc node => nodeSetUnion acc (f node)) init ↔
      x ∈ init ∨ ∃ s ∈ ms, x ∈ f s := by
  induction ms generalizing init with
  | nil => simp
  | cons m ms ih =>
    show x ∈ ms.foldl _ (nodeSetUnion init (f m)) ↔ _
    rw [ih, nodeSetUnion_mem]
    constructor
    · rintro ((h | h) | ⟨s, hs, hx⟩)
      · exact .inl h
      · exact .inr ⟨m, by simp, h⟩
      · exact .inr ⟨s, by simp [hs], hx⟩
    · rintro (h | ⟨s, hs, hx⟩)
      · exact .inl (.inl h)
      · rcases List.mem_cons.mp hs with rfl | hs'
        · exact .inl (.inr hx)
        · exact .inr ⟨s, hs', hx⟩

theorem mem_contextCandidates (g : MemoryGraph) (query : String) (max_nodes : Nat)
    (n : MemoryNode) :
    n ∈ g.contextCandidates query max_nodes ↔
      (n ∈ g.find_nodes (some query) none max_nodes ∨
        ∃ s ∈ g.find_nodes (some query) none max_nodes, n ∈ g.get_related_nodes s.id 1) := by
  unfold MemoryGraph.contextCandidates
  rw [foldl_nodeSetUnion_mem, nodeSetUnion_mem]
  simp

/-- C3: `GetContext(queryText, maxNodes)` seeds with
`FindNodes(queryText, limit=maxNodes)`, unions in
`GetRelatedNodes(seed, depth=1)` for each seed to form the candidate set,
sorts the candidates descending by the triple
`(importance, access_count, seconds-since-update)` — the third component
not inverted, so on importance/access-count ties the staler node
(larger `now - updated_at`) ranks higher — and truncates to `maxNodes`:
the result is the `maxNodes`-prefix of a sorted permutation of the
candidates, its length is `min maxNodes (number of candidates)` (so never
exceeds `maxNodes` and is shorter when fewer candidates exist). -/
theorem get_context_matches_claim (g : MemoryGraph) (query : String)
    (max_nodes : Nat) (now : Time) :
    ∃ sorted : List MemoryNode,
      sorted.Perm (g.contextCandidates query max_nodes) ∧
      sorted.Sorted (ctxRankGE now) ∧
      g.get_context query max_nodes now = sorted.take max_nodes ∧
      (g.get_context query max_nodes now).length =
        min max_nodes (g.contextCandidates query max_nodes).length ∧
      (g.get_context query max_nodes now).length ≤ max_nodes ∧
      (∀ n, n ∈ g.contextCandidates query max_nodes ↔
        (n ∈ g.find_nodes (some query) none max_nodes ∨
          ∃ s ∈ g.find_nodes (some query) none max_nodes, n ∈ g.get_related_nodes s.id 1)) ∧
      (∀ a b : MemoryNode, a.importance = b.importance → a.access_count = b.access_count →
        (ctxRankGE now a b ↔ now - b.updated_at ≤ now - a.updated_at)) := by
  refine ⟨(g.contextCandidates query max_nodes).insertionSort (ctxRankGE now),
    List.perm_insertionSort _ _, List.sorted_insertionSort _ _, rfl, ?_, ?_,
    fun n => mem_contextCandidates g query max_nodes n, ?_⟩
  · show (List.take max_nodes _).length = _
    rw [List.length_take, (List.perm_insertionSort (ctxRankGE now) _).length_eq]
  · show (List.take max_nodes _).length ≤ _
    rw [List.length_take]
    exact Nat.min_le_left _ _
  · intro a b himp hac
    unfold ctxRankGE
    constructor
    · rintro (h | ⟨_, (h | ⟨_, h⟩)⟩)
      · exact absurd h (by rw [himp]; exact lt_irrefl _)
      · exact absurd h (by rw [hac]; exact lt_irrefl _)
      · exact h
    · intro h
      exact .inr ⟨himp.symm, .inr ⟨hac.symm, h⟩⟩

/-- Witness for C3 at the concrete merge fixture: the candidates for query
"A" are `exA` and its neighbour `exB`, the result is sorted by the triple,
and the claim instantiates there. -/
theorem get_context_matches_claim_witness :
    ((exG2.get_context "A" 10 100).map (fun n => n.id) = ["a", "b"]) ∧
    (∃ sorted : List MemoryNode,
      sorted.Perm (exG2.contextCandidates "A" 10) ∧
      sorted.Sorted (ctxRankGE 100) ∧
      exG2.get_context "A" 10 100 = sorted.take 10 ∧
      (exG2.get_context "A" 10 100).length = min 10 (exG2.contextCandidates "A" 10).length ∧
      (exG2.get_context "A" 10 100).length ≤ 10 ∧
      (∀ n, n ∈ exG2.contextCandidates "A" 10 ↔
        (n ∈ exG2.find_nodes (some "A") none 10 ∨
          ∃ s ∈ exG2.find_nodes (some "A") none 10, n ∈ exG2.get_related_nodes s.id 1)) ∧
      (∀ a b : MemoryNode, a.importance = b.importance → a.access_count = b.access_count →
        (ctxRankGE 100 a b ↔ (100 : Time) - b.updated_at ≤ 100 - a.updated_at))) :=
  ⟨by decide, get_context_matches_claim exG2 "A" 10 100⟩

theorem foldl_setUnion2_mem (f h2 : String → List String) (ks : List String)
    (init : List String) (x : String) :
    x ∈ ks.foldl (fun acc nid => setUnion (setUnion acc (f nid)) (h2 nid)) init ↔
      x ∈ init ∨ ∃ nid ∈ ks, (x ∈ f nid ∨ x ∈ h2 nid) := by
  induction ks generalizing init with
  | nil => simp
  | cons k ks ih =>
    show x ∈ ks.foldl _ (setUnion (setUnion init (f k)) (h2 k)) ↔ _
    rw [ih, setUnion_mem, setUnion_mem]
    constructor
    · rintro (((h | h) | h) | ⟨nid, hn, hx⟩)
      · exact .inl h
      · exact .inr ⟨k, by simp, .inl h⟩
      · exact .inr ⟨k, by simp, .inr h⟩
      · exact .inr ⟨nid, by simp [hn], hx⟩
    · rintro (h | ⟨nid, hn, hx⟩)
      · exact .inl (.inl (.inl h))
      · rcases List.mem_cons.mp hn with rfl | hn'
        · rcases hx with h | h
          · exact .inl (.inl (.inr h))
          · exact .inl (.inr h)
        · exact .inr ⟨nid, hn', hx⟩

theorem related_ids_one_mem (g : MemoryGraph) (i : String) (h : g.hasNode i = true)
    (x : String) :
    x ∈ g.related_ids i 1 ↔ (x ∈ successorIds g.edges i ∨ x ∈ predecessorIds g.edges i) := by
  unfold MemoryGraph.related_ids
  simp only [h, Bool.not_true, Bool.false_eq_true, if_false]
  norm_num
  rw [setUnion_mem, setUnion_mem]
  simp

theorem related_ids_two_eq (g : MemoryGraph) (i : String) (h : g.hasNode i = true) :
    g.related_ids i 2 =
      (g.related_ids i 1).foldl
        (fun acc nid => setUnion (setUnion acc (successorIds g.edges nid)) (predecessorIds g.edges nid))
        (g.related_ids i 1) := by
  unfold MemoryGraph.related_ids
  simp [h]

theorem related_ids_ge_two (g : MemoryGraph) (i : String) (d : Nat) (hd : 2 ≤ d) :
    g.related_ids i d = g.related_ids i 2 := by
  have h1 : 1 ≤ d := le_trans (by norm_num) hd
  unfold MemoryGraph.related_ids
  simp [h1, hd]

/-- C4 counterexample: in a graph with a single node `n1` and a self-loop
`n1 → n1`, `GetRelatedNodes("n1", depth=1)` returns the node `n1` itself —
the claim's unconditional "excludes id itself" is false. -/
theorem get_related_nodes_self_loop_counterexample :
    exLoop.hasNode "n1" = true ∧
    exLoop.get_related_nodes "n1" 1 = [exN1] ∧
    exN1.id = "n1" := by
  refine ⟨by decide, by decide, by decide⟩

/-- C4 (amended): for every node id present in the graph,
`GetRelatedNodes(id, depth=0)` is empty; the depth-1 id set is exactly the
union of the direct successor and predecessor id sets (this may include
`id` itself, e.g. when `id` has a self-loop, so the claimed unconditional
exclusion of `id` is dropped); the depth-2 id set is exactly the depth-1
ids together with the successors and predecessors of every depth-1
neighbour, hence a superset of the depth-1 set; the depth-1 nodes are
exactly the stored records of the depth-1 ids; and for every depth ≥ 2 the
result equals the depth-2 result (in particular depth 3 equals depth 2). -/
theorem get_related_nodes_amended (g : MemoryGraph) (i : String)
    (h : g.hasNode i = true) :
    g.get_related_nodes i 0 = [] ∧
    (∀ x, x ∈ g.related_ids i 1 ↔
      (x ∈ successorIds g.edges i ∨ x ∈ predecessorIds g.edges i)) ∧
    (∀ x, x ∈ g.related_ids i 2 ↔ (x ∈ g.related_ids i 1 ∨
      ∃ nid ∈ g.related_ids i 1,
        (x ∈ successorIds g.edges nid ∨ x ∈ predecessorIds g.edges nid))) ∧
    (∀ x ∈ g.related_ids i 1, x ∈ g.related_ids i 2) ∧
    (∀ m, m ∈ g.get_related_nodes i 1 ↔
      ((m.id ∈ successorIds g.edges i ∨ m.id ∈ predecessorIds g.edges i) ∧
        g.findNode m.id = some m)) ∧
    (∀ d, 2 ≤ d → g.get_related_nodes i d = g.get_related_nodes i 2) := by
  refine ⟨?_, related_ids_one_mem g i h, ?_, ?_, ?_, ?_⟩
  · unfold MemoryGraph.get_related_nodes MemoryGraph.related_ids
    simp [h]
  · intro x
    rw [related_ids_two_eq g i h, foldl_setUnion2_mem]
  · intro x hx
    rw [related_ids_two_eq g i h, foldl_setUnion2_mem]
    exact .inl hx
  · intro m
    unfold MemoryGraph.get_related_nodes
    rw [List.mem_filterMap]
    constructor
    · rintro ⟨nid, hn, hfind⟩
      have hid : m.id = nid := ((findNode_some g nid m) hfind).2
      rw [related_ids_one_mem g i h] at hn
      exact ⟨hid ▸ hn, hid ▸ hfind⟩
    · rintro ⟨hn, hfind⟩
      exact ⟨m.id, (related_ids_one_mem g i h m.id).mpr hn, hfind⟩
  · intro d hd
    unfold MemoryGraph.get_related_nodes
    rw [related_ids_ge_two g i d hd]

/-- Witness for C4 (amended) at the merge fixture: node `a` exists, its
depth-0 neighbourhood is empty, its depth-1 neighbourhood is the stored
records of its successor/predecessor ids, and every depth ≥ 2 result
equals the depth-2 result. -/
theorem get_related_nodes_amended_witness :
    exG2.hasNode "a" = true ∧
    exG2.get_related_nodes "a" 0 = [] ∧
    (∀ d, 2 ≤ d → exG2.get_related_nodes "a" d = exG2.get_related_nodes "a" 2) := by
  have h := get_related_nodes_amended exG2 "a" (by decide)
  exact ⟨by decide, h.1, h.2.2.2.2.2⟩

/-- C5 counterexample: with pre-merge access counts 2 (node `a`) and
3 (node `b`), `GetNode(b)` after `MergeNodes(a, b)` returns a record with
access count 6, not 2 + 3 — `get_node` increments the stored (and
returned) counter before returning. -/
theorem merge_get_node_access_count_counterexample :
    exA.access_count = 2 ∧ exB.access_count = 3 ∧
    ((exG2.merge_nodes "a" "b" 7).toOption.bind (fun g' => (g'.get_node "b" 9).1)).map
      (fun n => n.access_count) = some 6 ∧
    ¬ (((exG2.merge_nodes "a" "b" 7).toOption.bind (fun g' => (g'.get_node "b" 9).1)).map
      (fun n => n.access_count) = some (2 + 3)) ∧
    ((exG2.merge_nodes "a" "b" 7).toOption.bind (fun g' => (g'.get_node "a" 9).1)) = none :=
  ⟨by decide, by decide, by decide, by decide, by decide⟩

/-- C5 (amended): for distinct existing nodes `a` and `b` (well-formed edge
store), after `MergeNodes(a, b)`: `GetNode(a)` returns NotFound, and
`GetNode(b)` returns a node whose access count is `a`'s pre-merge count
plus `b`'s pre-merge count plus one — the extra one being the access-count
bump that `GetNode` itself performs on every successful read. -/
theorem merge_get_node_amended (g : MemoryGraph) (a b : String) (now now2 : Time)
    (na nb : MemoryNode)
    (hs : g.findNode a = some na) (ht : g.findNode b = some nb)
    (hne : a ≠ b) (hwf : g.EdgesWF) :
    ∃ g', g.merge_nodes a b now = .ok g' ∧
      (g'.get_node a now2).1 = none ∧
      ∃ m, (g'.get_node b now2).1 = some m ∧
        m.access_count = nb.access_count + na.access_count + 1 := by
  have heq := merge_nodes_eq g a b now na nb hs ht hne hwf
  refine ⟨_, heq, ?_, ?_⟩
  · have hfind :
        ({ nodes := (g.nodes.map (fun m => if m.id == b then mergeRecord nb na else m)).filter
              (fun m => !(m.id == a)),
           edges := ((g.edges ++ predAdds g.edges a b now) ++
              succAdds (g.edges ++ predAdds g.edges a b now) a b now).filter
             (fun e => !(e.source == a) && !(e.target == a)) } : MemoryGraph).findNode a = none :=
      find?_filter_not_id _ a
    unfold MemoryGraph.get_node
    rw [hfind]
  · have hfind :
        ({ nodes := (g.nodes.map (fun m => if m.id == b then mergeRecord nb na else m)).filter
              (fun m => !(m.id == a)),
           edges := ((g.edges ++ predAdds g.edges a b now) ++
              succAdds (g.edges ++ predAdds g.edges a b now) a b now).filter
             (fun e => !(e.source == a) && !(e.target == a)) } : MemoryGraph).findNode b =
          some (mergeRecord nb na) :=
      find?_replace_filter g.nodes a b (mergeRecord nb na) (Ne.symm hne)
        (by simp [mergeRecord, (findNode_some g b nb ht).2])
        ⟨nb, (findNode_some g b nb ht).1, (findNode_some g b nb ht).2⟩
    refine ⟨(mergeRecord nb na).access now2, ?_, ?_⟩
    · unfold MemoryGraph.get_node
      rw [hfind]
    · simp [mergeRecord, MemoryNode.access]

/-- Witness for C5 (amended) at the concrete fixture: merging `a` into `b`
makes `GetNode(a)` miss and `GetNode(b)` report `3 + 2 + 1 = 6`. -/
theorem merge_get_node_amended_witness :
    (exG2.findNode "a" = some exA ∧ exG2.findNode "b" = some exB ∧
      ("a" : String) ≠ "b" ∧ exG2.EdgesWF) ∧
    ∃ g', exG2.merge_nodes "a" "b" 7 = .ok g' ∧
      (g'.get_node "a" 9).1 = none ∧
      ∃ m, (g'.get_node "b" 9).1 = some m ∧
        m.access_count = exB.access_count + exA.access_count + 1 := by
  have hwf : exG2.EdgesWF := by
    unfold MemoryGraph.EdgesWF
    decide
  exact ⟨⟨by decide, by decide, by decide, hwf⟩,
    merge_get_node_amended exG2 "a" "b" 7 9 exA exB (by decide) (by decide) (by decide) hwf⟩

theorem nodeType_ofValue_value (t : NodeType) : NodeType.ofValue t.value = some t := by
  cases t <;> rfl

theorem relType_ofValue_value (r : RelationshipType) :
    RelationshipType.ofValue r.value = some r := by
  cases r <;> rfl

theorem memoryNode_from_to (n : MemoryNode) : MemoryNode.from_dict n.to_dict = .ok n := by
  unfold MemoryNode.from_dict MemoryNode.to_dict
  rw [nodeType_ofValue_value]

theorem hasNode_append_one (ns : List MemoryNode) (es : List MemoryEdge)
    (n : MemoryNode) (x : String) :
    ({ nodes := ns ++ [n], edges := es } : MemoryGraph).hasNode x =
      (({ nodes := ns, edges := es } : MemoryGraph).hasNode x || (n.id == x)) := by
  show (ns ++ [n]).any _ = _
  rw [List.any_append]
  simp [MemoryGraph.hasNode]

/-- The node-restoration phase of `from_dict`: serializing a node list with
duplicate-free ids and re-adding each record appends them in order. -/
theorem from_dict_nodes_phase (l : List MemoryNode) :
    ∀ (ns : List MemoryNode),
      (∀ n ∈ l, ({ nodes := ns, edges := [] } : MemoryGraph).hasNode n.id = false) →
      (l.map (fun n => n.id)).Nodup →
      (l.map MemoryNode.to_dict).foldlM
        (fun (gc : MemoryGraph) nd => do
          let n ← MemoryNode.from_dict nd
          pure (gc.add_node n))
        ({ nodes := ns, edges := [] } : MemoryGraph) =
      .ok { nodes := ns ++ l, edges := [] } := by
  induction l with
  | nil =>
    intro ns _ _
    simp only [List.map_nil, List.foldlM_nil, List.append_nil]
    rfl
  | cons n l ih =>
    intro ns hfresh hnd
    rw [List.map_cons, List.foldlM_cons]
    have hstep : (do
        let n2 ← MemoryNode.from_dict n.to_dict
        pure (MemoryGraph.add_node { nodes := ns, edges := [] } n2) :
          Except String MemoryGraph) =
        .ok (MemoryGraph.add_node { nodes := ns, edges := [] } n) := by
      rw [memoryNode_from_to]
      rfl
    rw [hstep, except_ok_bind]
    have hadd : MemoryGraph.add_node { nodes := ns, edges := [] } n =
        { nodes := ns ++ [n], edges := [] } := by
      unfold MemoryGraph.add_node
      rw [if_neg (by simp [hfresh n (by simp)])]
    rw [hadd]
    rw [List.map_cons, List.nodup_cons] at hnd
    have hfresh' : ∀ m ∈ l, ({ nodes := ns ++ [n], edges := [] } : MemoryGraph).hasNode m.id = false := by
      intro m hm
      rw [hasNode_append_one]
      have h1 := hfresh m (by simp [hm])
      have h2 : (n.id == m.id) = false := by
        simp only [beq_eq_false_iff_ne, ne_eq]
        intro hc
        exact hnd.1 (hc ▸ List.mem_map_of_mem (fun n => n.id) hm)
      simp [h1, h2]
    rw [ih (ns ++ [n]) hfresh' hnd.2]
    simp

/-- The edge-restoration phase of `from_dict`: re-adding each serialized
edge succeeds (endpoints restored first) and appends a copy stamped with
the load time. -/
theorem from_dict_edges_phase (l : List MemoryEdge) (now : Time) :
    ∀ (acc : MemoryGraph),
      (∀ e ∈ l, acc.hasNode e.source = true ∧ acc.hasNode e.target = true) →
      ((l.map (fun e => ({ source := e.source, target := e.target,
                           relationship := e.relationship.value,
                           metadata := e.metadata } : EdgeDict))).foldlM
        (fun gc ed =>
          match RelationshipType.ofValue ed.relationship with
          | none => Except.error "invalid relationship type"
          | some rel => gc.add_edge ed.source ed.target rel ed.metadata now) acc) =
      .ok { acc with edges := acc.edges ++ l.map (fun e => { e with created_at := now }) } := by
  induction l with
  | nil =>
    intro acc _
    simp only [List.map_nil, List.foldlM_nil, List.append_nil]
    rfl
  | cons e l ih =>
    intro acc hwf
    rw [List.map_cons, List.foldlM_cons]
    have hstep : (match RelationshipType.ofValue
          (({ source := e.source, target := e.target,
                relationship := e.relationship.value,
                metadata := e.metadata } : EdgeDict)).relationship with
        | none => Except.error "invalid relationship type"
        | some rel => acc.add_edge e.source e.target rel e.metadata now) =
        .ok { acc with edges := acc.edges ++ [{ e with created_at := now }] } := by
      show (match RelationshipType.ofValue e.relationship.value with
        | none => Except.error "invalid relationship type"
        | some rel => acc.add_edge e.source e.target rel e.metadata now) = _
      rw [relType_ofValue_value]
      show acc.add_edge e.source e.target e.relationship e.metadata now = _
      rw [add_edge_ok acc e.source e.target e.relationship e.metadata now
        (hwf e (by simp)).1 (hwf e (by simp)).2]
    rw [hstep, except_ok_bind]
    have hwf' : ∀ e2 ∈ l,
        ({ acc with edges := acc.edges ++ [{ e with created_at := now }] } : MemoryGraph).hasNode e2.source = true ∧
        ({ acc with edges := acc.edges ++ [{ e with created_at := now }] } : MemoryGraph).hasNode e2.target = true := by
      intro e2 he2
      exact hwf e2 (by simp [he2])
    rw [ih _ hwf']
    simp [List.append_assoc]

/-- The `from_dict (to_dict g)` restores the node list verbatim and the edge
list with fresh `created_at` stamps, for any graph with duplicate-free node
ids and validated edge endpoints. -/
theorem graph_from_to_dict (g : MemoryGraph) (now : Time)
    (hnd : (g.nodes.map (fun n => n.id)).Nodup) (hwf : g.EdgesWF) :
    MemoryGraph.from_dict g.to_dict now =
      .ok { nodes := g.nodes, edges := g.edges.map (fun e => { e with created_at := now }) } := by
  unfold MemoryGraph.from_dict MemoryGraph.to_dict
  rw [from_dict_nodes_phase g.nodes [] (fun n _ => rfl) hnd, except_ok_bind]
  have hwf2 : ∀ e ∈ g.edges,
      ({ nodes := [] ++ g.nodes, edges := [] } : MemoryGraph).hasNode e.source = true ∧
      ({ nodes := [] ++ g.nodes, edges := [] } : MemoryGraph).hasNode e.target = true := by
    intro e he
    exact hwf e he
  rw [from_dict_edges_phase g.edges now _ hwf2]
  rfl

/-- The `LoadAll(SaveAll(g))` reconstructs the node list verbatim and the edge
list up to fresh `created_at` stamps.  When `g` has nodes, the database
path is used; when `g` is empty, the database holds no rows and the loader
falls back to the JSON backup written by the same save. -/
theorem load_save_eq (g : MemoryGraph) (now : Time)
    (hnd : (g.nodes.map (fun n => n.id)).Nodup) (hwf : g.EdgesWF) :
    Storage.load_memory_graph (Storage.save_memory_graph g) now =
      .ok { nodes := g.nodes, edges := g.edges.map (fun e => { e with created_at := now }) } := by
  have hfd := graph_from_to_dict g now hnd hwf
  unfold Storage.save_memory_graph Storage.load_memory_graph
  cases hg : g.nodes with
  | nil =>
    have hmap : g.to_dict.nodes = [] := by
      show g.nodes.map _ = []
      rw [hg]
      rfl
    rw [hg] at hfd
    simp only [hmap, List.isEmpty_nil, if_true, pure_bind]
    exact hfd
  | cons n ns =>
    have hmap : g.to_dict.nodes = MemoryNode.to_dict n :: ns.map MemoryNode.to_dict := by
      show g.nodes.map _ = _
      rw [hg]
      rfl
    have hfd2 : MemoryGraph.from_dict { nodes := g.to_dict.nodes, edges := g.to_dict.edges } now =
        .ok { nodes := g.nodes, edges := g.edges.map (fun e => { e with created_at := now }) } := hfd
    rw [hg] at hfd2
    simp only [hmap, List.isEmpty_cons, Bool.false_eq_true, if_false]
    rw [← hmap]
    rw [hfd2, except_ok_bind]
    simp only [List.isEmpty_cons, Bool.false_eq_true, if_false]
    rfl

/-- C6: round-trip persistence.  For every graph with duplicate-free node
ids and validated edge endpoints, `LoadAll(SaveAll(g))` succeeds and
yields a graph with the same `(id, content)` node set and the same
`(source, target, relationship)` edge triples as `g` (order-independent —
here even the stored order is preserved, so the permutation is the
identity); and loading an empty persisted store (no database rows, no
backup file) produces the empty graph rather than an error. -/
theorem persistence_round_trip (g : MemoryGraph) (now : Time)
    (hnd : (g.nodes.map (fun n => n.id)).Nodup) (hwf : g.EdgesWF) :
    (∃ g', Storage.load_memory_graph (Storage.save_memory_graph g) now = .ok g' ∧
      (g'.nodes.map (fun n => (n.id, n.content))).Perm
        (g.nodes.map (fun n => (n.id, n.content))) ∧
      (g'.edges.map (fun e => (e.source, e.target, e.relationship))).Perm
        (g.edges.map (fun e => (e.source, e.target, e.relationship)))) ∧
    Storage.load_memory_graph { dbNodes := [], dbEdges := [], jsonFile := none } now =
      .ok { nodes := [], edges := [] } := by
  refine ⟨⟨_, load_save_eq g now hnd hwf, List.Perm.refl _, ?_⟩, ?_⟩
  · apply List.Perm.of_eq
    show ((g.edges.map (fun e => { e with created_at := now })).map
      (fun e => (e.source, e.target, e.relationship))) = _
    rw [List.map_map]
    rfl
  · rfl

/-- Witness for C6 at the concrete fixture with three edges, including a
self-loop and integral timestamps. -/
theorem persistence_round_trip_witness :
    ((exG2.nodes.map (fun n => n.id)).Nodup ∧ exG2.EdgesWF) ∧
    (∃ g', Storage.load_memory_graph (Storage.save_memory_graph exG2) 4 = .ok g' ∧
      (g'.nodes.map (fun n => (n.id, n.content))).Perm
        (exG2.nodes.map (fun n => (n.id, n.content))) ∧
      (g'.edges.map (fun e => (e.source, e.target, e.relationship))).Perm
        (exG2.edges.map (fun e => (e.source, e.target, e.relationship)))) ∧
    Storage.load_memory_graph { dbNodes := [], dbEdges := [], jsonFile := none } 4 =
      .ok { nodes := [], edges := [] } := by
  have hnd : (exG2.nodes.map (fun n => n.id)).Nodup := by decide
  have hwf : exG2.EdgesWF := by
    unfold MemoryGraph.EdgesWF
    decide
  obtain ⟨h1, h2⟩ := persistence_round_trip exG2 4 hnd hwf
  exact ⟨⟨hnd, hwf⟩, h1, h2⟩

/-- C7: `AddEdge(source, target, type, metadata)` fails with a
`ValidationError` (`ValueError` in the source) if and only if at least one
endpoint id is absent from the node store — endpoints are validated, never
auto-created; the error is raised before any mutation, so a failing call
leaves the graph unchanged; and a successful call leaves the node store
untouched and appends exactly one new edge. -/
theorem add_edge_validation (g : MemoryGraph) (source_id target_id : String)
    (rel : RelationshipType) (meta : Meta) (now : Time) :
    ((∃ msg, g.add_edge source_id target_id rel meta now = .error msg) ↔
      (g.hasNode source_id = false ∨ g.hasNode target_id = false)) ∧
    ((g.hasNode source_id = false ∨ g.hasNode target_id = false) →
      g.add_edge source_id target_id rel meta now = .error "Both nodes must exist in the graph") ∧
    (g.hasNode source_id = true → g.hasNode target_id = true →
      g.add_edge source_id target_id rel meta now =
        .ok { g with edges := g.edges ++
          [{ source := source_id, target := target_id, relationship := rel,
             metadata := meta, created_at := now }] }) ∧
    (∀ g', g.add_edge source_id target_id rel meta now = .ok g' →
      g'.nodes = g.nodes ∧ g'.edges.length = g.edges.length + 1 ∧
        g'.edges.take g.edges.length = g.edges) := by
  by_cases h1 : g.hasNode source_id = true
  · by_cases h2 : g.hasNode target_id = true
    · have hok := add_edge_ok g source_id target_id rel meta now h1 h2
      refine ⟨?_, ?_, fun _ _ => hok, ?_⟩
      · constructor
        · rintro ⟨msg, hmsg⟩
          rw [hok] at hmsg
          exact absurd hmsg (by simp)
        · rintro (h | h)
          · exact absurd h1 (by simp [h])
          · exact absurd h2 (by simp [h])
      · rintro (h | h)
        · exact absurd h1 (by simp [h])
        · exact absurd h2 (by simp [h])
      · rintro g' hg'
        rw [hok] at hg'
        injection hg' with hg'
        subst hg'
        refine ⟨rfl, by simp, List.take_left g.edges _⟩
    · have h2' : g.hasNode target_id = false := by
        revert h2
        cases g.hasNode target_id <;> simp
      have herr : g.add_edge source_id target_id rel meta now =
          .error "Both nodes must exist in the graph" := by
        unfold MemoryGraph.add_edge
        rw [if_pos (by simp [h2'])]
      refine ⟨⟨fun _ => .inr h2', fun _ => ⟨_, herr⟩⟩, fun _ => herr, ?_, ?_⟩
      · intro _ hc
        exact absurd hc (by simp [h2'])
      · rintro g' hg'
        rw [herr] at hg'
        exact absurd hg' (by simp)
  · have h1' : g.hasNode source_id = false := by
      revert h1
      cases g.hasNode source_id <;> simp
    have herr : g.add_edge source_id target_id rel meta now =
        .error "Both nodes must exist in the graph" := by
      unfold MemoryGraph.add_edge
      rw [if_pos (by simp [h1'])]
    refine ⟨⟨fun _ => .inl h1', fun _ => ⟨_, herr⟩⟩, fun _ => herr, ?_, ?_⟩
    · intro hc _
      exact absurd hc (by simp [h1'])
    · rintro g' hg'
      rw [herr] at hg'
      exact absurd hg' (by simp)

/-- Witness for C7 at the concrete fixture: adding an edge between the two
existing nodes appends it; adding an edge towards a missing id fails with
the validation error. -/
theorem add_edge_validation_witness :
    (exG2.hasNode "a" = true ∧ exG2.hasNode "b" = true ∧ exG2.hasNode "z" = false) ∧
    (exG2.add_edge "a" "b" .involves [] 3 =
      .ok { exG2 with edges := exG2.edges ++
        [{ source := "a", target := "b", relationship := .involves,
           metadata := [], created_at := 3 }] }) ∧
    (exG2.add_edge "a" "z" .involves [] 3 = .error "Both nodes must exist in the graph") := by
  refine ⟨⟨by decide, by decide, by decide⟩, ?_, ?_⟩
  · exact (add_edge_validation exG2 "a" "b" .involves [] 3).2.2.1 (by decide) (by decide)
  · exact (add_edge_validation exG2 "a" "z" .involves [] 3).2.1 (.inr (by decide))

theorem find?_map_replace (l : List MemoryNode) (b : String) (r : MemoryNode)
    (hrb : r.id = b) (hex : ∃ m ∈ l, m.id = b) :
    (l.map (fun m => if m.id == b then r else m)).find? (fun m => m.id == b) = some r := by
  induction l with
  | nil => simp at hex
  | cons m l ih =>
    by_cases hm : m.id = b
    · simp only [List.map_cons, if_pos (by simp [hm] : (m.id == b) = true)]
      rw [List.find?_cons_of_pos (p := fun m : MemoryNode => m.id == b) _ (by simp [hrb])]
    · simp only [List.map_cons, if_neg (by simp [hm] : ¬ (m.id == b) = true)]
      rw [List.find?_cons_of_neg (p := fun m : MemoryNode => m.id == b) _ (by simp [hm])]
      apply ih
      obtain ⟨m2, hm2, hid⟩ := hex
      rcases List.mem_cons.mp hm2 with rfl | h2
      · exact absurd hid hm
      · exact ⟨m2, h2, hid⟩

/-- The `AddNode` always stores the record unchanged: looking the id up right
after insertion returns exactly the inserted record. -/
theorem findNode_add_node (g : MemoryGraph) (n : MemoryNode) :
    (g.add_node n).findNode n.id = some n := by
  unfold MemoryGraph.add_node MemoryGraph.findNode
  by_cases h : g.hasNode n.id = true
  · rw [if_pos h]
    exact find?_map_replace g.nodes n.id n rfl ((hasNode_iff g n.id).mp h)
  · rw [if_neg h, List.find?_append]
    have hnone : g.nodes.find? (fun m => m.id == n.id) = none := by
      rw [List.find?_eq_none]
      intro m hm
      simp only [beq_iff_eq]
      intro hc
      exact h ((hasNode_iff g n.id).mpr ⟨m, hm, hc⟩)
    rw [hnone]
    simp

/-- The `AddNode` does not disturb the record stored under any other id. -/
theorem findNode_add_node_ne (g : MemoryGraph) (n : MemoryNode) (x : String)
    (hx : x ≠ n.id) :
    (g.add_node n).findNode x = g.findNode x := by
  unfold MemoryGraph.add_node MemoryGraph.findNode
  by_cases h : g.hasNode n.id = true
  · rw [if_pos h]
    induction g.nodes with
    | nil => rfl
    | cons m l ih =>
      by_cases hm : m.id = n.id
      · simp only [List.map_cons, if_pos (by simp [hm] : (m.id == n.id) = true)]
        rw [List.find?_cons_of_neg (p := fun m : MemoryNode => m.id == x) _
            (by simp only [beq_iff_eq]; exact fun hc => hx hc.symm),
          List.find?_cons_of_neg (p := fun m : MemoryNode => m.id == x) _
            (by simp only [beq_iff_eq, hm]; exact fun hc => hx hc.symm)]
        exact ih
      · simp only [List.map_cons, if_neg (by simp [hm] : ¬ (m.id == n.id) = true)]
        by_cases hmx : m.id = x
        · rw [List.find?_cons_of_pos (p := fun m : MemoryNode => m.id == x) _ (by simp [hmx]),
            List.find?_cons_of_pos (p := fun m : MemoryNode => m.id == x) _ (by simp [hmx])]
        · rw [List.find?_cons_of_neg (p := fun m : MemoryNode => m.id == x) _ (by simp [hmx]),
            List.find?_cons_of_neg (p := fun m : MemoryNode => m.id == x) _ (by simp [hmx])]
          exact ih
  · rw [if_neg h, List.find?_append]
    have hlast : ([n].find? (fun m => m.id == x)) = none := by
      rw [List.find?_eq_none]
      intro m hm
      simp only [List.mem_singleton] at hm
      subst hm
      simp only [beq_iff_eq]
      exact fun hc => hx hc.symm
    rw [hlast]
    cases g.nodes.find? (fun m => m.id == x) <;> rfl

/-- The `FindNodes` only returns stored nodes. -/
theorem find_nodes_mem_nodes (g : MemoryGraph) (query : Option String)
    (node_type : Option NodeType) (limit : Nat) (n : MemoryNode)
    (hn : n ∈ g.find_nodes query node_type limit) : n ∈ g.nodes := by
  have hmem : n ∈ (g.nodes.filter
      (fun n => matchesType node_type n && matchesQuery query n)).insertionSort rankGE :=
    (List.take_sublist _ _).mem hn
  exact List.mem_of_mem_filter ((List.perm_insertionSort rankGE _).mem_iff.mp hmem)

/-- C8 counterexample: inserting a node with importance 3 neither rejects
nor clamps — the stored record keeps importance 3 and `FindNodes` returns
it with its out-of-range importance.  No range enforcement exists at
insertion. -/
theorem importance_not_enforced_counterexample :
    exBad.importance = 3 ∧ ¬ (exBad.importance ≤ 1) ∧
    (exG8.findNode "w").map (fun n => n.importance) = some 3 ∧
    (exG8.find_nodes none none 10).map (fun n => n.importance) = [3] :=
  ⟨by decide, by decide, by decide, by decide⟩

/-- C8 (amended): the importance range is NOT enforced at insertion —
`AddNode` stores the record unchanged, whatever its importance (first
conjunct, instantiable with an out-of-range record).  The conditional
safety property nevertheless holds: when every stored node's importance
lies in [0, 1] — which is the state reached by only inserting in-range
importances, precisely because insertion stores them unchanged —
`FindNodes` never returns a node with out-of-range importance, since it
only returns stored nodes. -/
theorem importance_range_amended (g : MemoryGraph) (query : Option String)
    (node_type : Option NodeType) (limit : Nat) (m : MemoryNode)
    (hall : ∀ n ∈ g.nodes, 0 ≤ n.importance ∧ n.importance ≤ 1) :
    ((g.add_node m).findNode m.id = some m) ∧
    (∀ n ∈ g.find_nodes query node_type limit, 0 ≤ n.importance ∧ n.importance ≤ 1) :=
  ⟨findNode_add_node g m,
    fun n hn => hall n (find_nodes_mem_nodes g query node_type limit n hn)⟩

/-- Witness for C8 (amended) at the in-range two-node fixture, inserting
the out-of-range record to exhibit that insertion stores it unchanged. -/
theorem importance_range_amended_witness :
    (∀ n ∈ exGraph.nodes, 0 ≤ n.importance ∧ n.importance ≤ 1) ∧
    ((exGraph.add_node exBad).findNode exBad.id = some exBad) ∧
    (∀ n ∈ exGraph.find_nodes (some "") none 10, 0 ≤ n.importance ∧ n.importance ≤ 1) := by
  have hall : ∀ n ∈ exGraph.nodes, 0 ≤ n.importance ∧ n.importance ≤ 1 := by decide
  obtain ⟨h1, h2⟩ := importance_range_amended exGraph (some "") none 10 exBad hall
  exact ⟨hall, h1, h2⟩

/-- C9 counterexample: overwriting the node record of `n1` (which has a
self-loop) leaves every edge in place, yet `GetRelatedNodes("n1", 1)` is
affected: it now returns the new record instead of the old one, because
the id's neighbourhood contains the id itself.  The claim's final clause
("GetRelatedNodes for that id are unaffected by the overwrite") is false
at the level of returned records. -/
theorem add_node_overwrite_counterexample :
    exLoop.hasNode "n1" = true ∧
    (exLoop.add_node exN1b).edges = exLoop.edges ∧
    exLoop.get_related_nodes "n1" 1 = [exN1] ∧
    (exLoop.add_node exN1b).get_related_nodes "n1" 1 = [exN1b] ∧
    exN1b ≠ exN1 :=
  ⟨by decide, by decide, by decide, by decide, by decide⟩

/-- C9 (amended): when `AddNode` is called with a node whose id already
exists, the stored record is overwritten by the new one, every edge
previously incident to that id remains in the relationship store
unchanged, and consequently the successor and predecessor id sets of
every node and the related-id sets of the overwritten id at every depth
are unaffected; records stored under other ids are untouched; and the
full `GetRelatedNodes` record list for that id is unchanged as well
whenever the id is not its own neighbour — with a self-loop the id set is
still unchanged but the record returned for the id itself is the new
one (see the counterexample). -/
theorem add_node_overwrite_amended (g : MemoryGraph) (n : MemoryNode)
    (h : g.hasNode n.id = true) :
    (g.add_node n).edges = g.edges ∧
    (g.add_node n).findNode n.id = some n ∧
    (∀ x, successorIds (g.add_node n).edges x = successorIds g.edges x) ∧
    (∀ x, predecessorIds (g.add_node n).edges x = predecessorIds g.edges x) ∧
    (∀ d, (g.add_node n).related_ids n.id d = g.related_ids n.id d) ∧
    (∀ x, x ≠ n.id → (g.add_node n).findNode x = g.findNode x) ∧
    (∀ d, n.id ∉ g.related_ids n.id d →
      (g.add_node n).get_related_nodes n.id d = g.get_related_nodes n.id d) := by
  have hh : ∀ x, (g.add_node n).hasNode x = g.hasNode x := by
    intro x
    rw [hasNode_eq_ids_any, hasNode_eq_ids_any]
    have : (g.add_node n).nodes.map (fun m => m.id) = g.nodes.map (fun m => m.id) := by
      show (if g.hasNode n.id then
          g.nodes.map (fun m => if m.id == n.id then n else m) else g.nodes ++ [n]).map
          (fun m => m.id) = _
      rw [if_pos h]
      exact replace_preserves_ids g.nodes n.id n rfl
    rw [this]
  have hrel : ∀ d, (g.add_node n).related_ids n.id d = g.related_ids n.id d := by
    intro d
    unfold MemoryGraph.related_ids
    rw [hh]
    rfl
  refine ⟨rfl, findNode_add_node g n, fun x => rfl, fun x => rfl, hrel,
    fun x hx => findNode_add_node_ne g n x hx, ?_⟩
  intro d hnot
  unfold MemoryGraph.get_related_nodes
  rw [hrel]
  apply List.filterMap_congr
  intro nid hnid
  have hne : nid ≠ n.id := fun hc => hnot (hc ▸ hnid)
  exact findNode_add_node_ne g n nid hne

/-- Witness for C9 (amended) at the self-loop fixture: the overwrite keeps
the edges and stores the new record under the id. -/
theorem add_node_overwrite_amended_witness :
    exLoop.hasNode exN1b.id = true ∧
    (exLoop.add_node exN1b).edges = exLoop.edges ∧
    (exLoop.add_node exN1b).findNode exN1b.id = some exN1b := by
  have h : exLoop.hasNode exN1b.id = true := by decide
  obtain ⟨h1, h2, _⟩ := add_node_overwrite_amended exLoop exN1b h
  exact ⟨h, h1, h2⟩

/-- C10: for every id absent from the node store and every depth,
`GetRelatedNodes(id, depth)` returns the empty sequence (and its related-id
set is empty) instead of raising an error; the function only reads the
graph — its embedding is a pure function of the graph value — so the
graph state is unchanged by the call. -/
theorem get_related_nodes_missing_id (g : MemoryGraph) (i : String) (d : Nat)
    (h : g.hasNode i = false) :
    g.get_related_nodes i d = [] ∧ g.related_ids i d = [] := by
  have hr : g.related_ids i d = [] := by
    unfold MemoryGraph.related_ids
    rw [h]
    rfl
  refine ⟨?_, hr⟩
  unfold MemoryGraph.get_related_nodes
  rw [hr]
  rfl

/-- Witness for C10: a missing id on the concrete fixture, at two depths. -/
theorem get_related_nodes_missing_id_witness :
    exG2.hasNode "zzz" = false ∧
    exG2.get_related_nodes "zzz" 1 = [] ∧
    exG2.related_ids "zzz" 5 = [] :=
  ⟨by decide, (get_related_nodes_missing_id exG2 "zzz" 1 (by decide)).1,
    (get_related_nodes_missing_id exG2 "zzz" 5 (by decide)).2⟩
